import Mathlib

/-!
Verification of the crackdb query engine core against its specification.

The Rust sources are shallowly embedded: machine integers become `Int`/`Nat`
with explicit wrapping modulo `2^w` (release-mode semantics), `f32`/`f64`
payloads are modelled as exact rationals (`Rat`), fallible Rust functions
return `Except`, and a Rust `panic!`/`todo!` (which aborts the statement)
is a distinguished failure constructor.  Where a definition is taken from
the spec rather than the sources (because the deciding code is not part of
the source snapshot), its doc comment says so explicitly.
-/

namespace CrackDB

/-- DataType enum, translated from `src/data_types.rs`. -/
inductive DataType
  | uint8 | uint16 | uint32 | uint64
  | int8 | int16 | int32 | int64
  | float32 | float64
  | string | boolean | dateTime | unknown
  deriving DecidableEq, Repr

/-- DBError enum, translated from `src/errors.rs`. -/
inductive DBError
  | parserError (msg : String)
  | tableNotFound (msg : String)
  | interpretingError (msg : String)
  | unknown (msg : String)
  | storageEngine (msg : String)
  deriving DecidableEq, Repr

/-- Failure of evaluation: either a `DBError` (the Rust `Err` path) or an
abort of the process (the Rust `panic!`, `todo!` or arithmetic-check path,
which is not a `DBError` but still means evaluation does not succeed). -/
inductive EvalFail
  | err (e : DBError)
  | panicked (msg : String)
  deriving DecidableEq, Repr

/-- Literal enum, translated from `src/expressions.rs`.  Unsigned payloads are
`Nat`, signed payloads are `Int` (with wrapping applied by the arithmetic),
float payloads are exact rationals. -/
inductive Literal
  | unResolvedNumber (s : String)
  | unResolvedString (s : String)
  | uint8 (v : Nat) | uint16 (v : Nat) | uint32 (v : Nat) | uint64 (v : Nat)
  | int8 (v : Int) | int16 (v : Int) | int32 (v : Int) | int64 (v : Int)
  | float32 (v : Rat) | float64 (v : Rat)
  | bool (v : Bool)
  | string (v : String)
  | dateTime (v : String)
  | null
  deriving DecidableEq, Repr

namespace Literal

/-- Literal::data_type, translated from `src/expressions.rs`. -/
def dataType : Literal → DataType
  | .unResolvedNumber _ => .unknown
  | .unResolvedString _ => .unknown
  | .uint8 _ => .uint8
  | .uint16 _ => .uint16
  | .uint32 _ => .uint32
  | .uint64 _ => .uint64
  | .int8 _ => .int8
  | .int16 _ => .int16
  | .int32 _ => .int32
  | .int64 _ => .int64
  | .float32 _ => .float32
  | .float64 _ => .float64
  | .bool _ => .boolean
  | .string _ => .string
  | .dateTime _ => .dateTime
  | .null => .unknown

/-- Display form of a literal (Rust `Display` impl).  Rational payloads of the
float variants are rendered as numerator (and denominator when it is not 1);
no claim exercises float display, integers and strings are faithful. -/
def display : Literal → String
  | .unResolvedNumber s => s
  | .unResolvedString s => s
  | .uint8 v => toString v
  | .uint16 v => toString v
  | .uint32 v => toString v
  | .uint64 v => toString v
  | .int8 v => toString v
  | .int16 v => toString v
  | .int32 v => toString v
  | .int64 v => toString v
  | .float32 v => if v.den = 1 then toString v.num else toString v.num ++ "/" ++ toString v.den
  | .float64 v => if v.den = 1 then toString v.num else toString v.num ++ "/" ++ toString v.den
  | .bool v => toString v
  | .string v => v
  | .dateTime v => v
  | .null => "null"

/-- Rust derived `Debug` form, used inside interpreter error messages. -/
def debugRepr : Literal → String
  | .unResolvedNumber s => "UnResolvedNumber(" ++ s ++ ")"
  | .unResolvedString s => "UnResolvedString(" ++ s ++ ")"
  | .uint8 v => "UInt8(" ++ toString v ++ ")"
  | .uint16 v => "UInt16(" ++ toString v ++ ")"
  | .uint32 v => "UInt32(" ++ toString v ++ ")"
  | .uint64 v => "UInt64(" ++ toString v ++ ")"
  | .int8 v => "Int8(" ++ toString v ++ ")"
  | .int16 v => "Int16(" ++ toString v ++ ")"
  | .int32 v => "Int32(" ++ toString v ++ ")"
  | .int64 v => "Int64(" ++ toString v ++ ")"
  | .float32 v => "Float32(" ++ toString v.num ++ ")"
  | .float64 v => "Float64(" ++ toString v.num ++ ")"
  | .bool v => "Bool(" ++ toString v ++ ")"
  | .string v => "String(" ++ v ++ ")"
  | .dateTime v => "DateTime(" ++ v ++ ")"
  | .null => "Null"

end Literal

namespace DataType

/-- DataType::is_integer, translated from `src/data_types.rs`. -/
def isInteger : DataType → Bool
  | .uint8 | .uint16 | .uint32 | .uint64 | .int8 | .int16 | .int32 | .int64 => true
  | _ => false

/-- DataType::zero, translated from `src/data_types.rs`. -/
def zero : DataType → Except EvalFail Literal
  | .uint8 => .ok (.uint8 0)
  | .uint16 => .ok (.uint16 0)
  | .uint32 => .ok (.uint32 0)
  | .uint64 => .ok (.uint64 0)
  | .int8 => .ok (.int8 0)
  | .int16 => .ok (.int16 0)
  | .int32 => .ok (.int32 0)
  | .int64 => .ok (.int64 0)
  | .float32 => .ok (.float32 0)
  | .float64 => .ok (.float64 0)
  | t => .error (.err (.unknown ("zero not supported for " ++ toString (repr t))))

end DataType

/-- Wrapping of a `Nat` into an unsigned width of `w` bits (Rust release-mode
overflow semantics). -/
def wrapU (w : Nat) (x : Nat) : Nat := x % 2 ^ w

/-- Wrapping of an `Int` into a signed two's-complement width of `w` bits. -/
def wrapS (w : Nat) (x : Int) : Int := (x + 2 ^ (w - 1)) % 2 ^ w - 2 ^ (w - 1)

/-- BinaryOp enum, translated from `src/expressions.rs`. -/
inductive BinaryOp
  | plus | minus | divide | multiply
  | gt | gte | eq | lt | lte
  | and | or
  | max | min
  deriving DecidableEq, Repr

/-- Display form of a binary operator (Rust `Display` impl). -/
def BinaryOp.display : BinaryOp → String
  | .plus => "+"
  | .minus => "-"
  | .divide => "/"
  | .multiply => "*"
  | .gt => ">"
  | .gte => ">="
  | .eq => "="
  | .lt => "<"
  | .lte => "<="
  | .and => "AND"
  | .or => "OR"
  | .max => "MAX"
  | .min => "MIN"

/-- Rust derived `Debug` form of a binary operator. -/
def BinaryOp.debugRepr : BinaryOp → String
  | .plus => "Plus"
  | .minus => "Minus"
  | .divide => "Divide"
  | .multiply => "Multiply"
  | .gt => "Gt"
  | .gte => "Gte"
  | .eq => "Eq"
  | .lt => "Lt"
  | .lte => "Lte"
  | .and => "And"
  | .or => "Or"
  | .max => "Max"
  | .min => "Min"

/-- UnaryOp enum, translated from `src/expressions.rs`. -/
inductive UnaryOp
  | not | neg
  deriving DecidableEq, Repr

/-- FieldInfo, translated from `src/tables.rs`. -/
structure FieldInfo where
  name : String
  dataType : DataType
  deriving DecidableEq, Repr

/-- RelationSchema, translated from `src/tables.rs`. -/
structure RelationSchema where
  fields : List FieldInfo
  deriving DecidableEq, Repr

/-- Rust `str::to_lowercase` restricted to character-wise lowering (ASCII
function names are all that is ever passed). -/
def lowercase (s : String) : String := ⟨s.data.map Char.toLower⟩

/-- RelationSchema::merge, translated from `src/tables.rs`. -/
def RelationSchema.merge (left right : RelationSchema) : RelationSchema :=
  ⟨left.fields ++ right.fields⟩

/-- Modelled from the spec: the Row type of the current engine is not in the
source snapshot (`src/row.rs` there is an earlier revision without `concat`
and `update_field`).  Per the spec a row is a finite ordered sequence of
literals; `Combined` rows are a read-only left-then-right view, modelled here
by list append. -/
structure Row where
  fields : List Literal
  deriving DecidableEq, Repr

namespace Row

/-- Modelled from the spec: indexed access; a bounds violation fails with
`Unknown("index out of bound")`. -/
def getField (r : Row) (i : Nat) : Except EvalFail Literal :=
  match r.fields.get? i with
  | some l => .ok l
  | none => .error (.err (.unknown "index out of bound"))

/-- Modelled from the spec: concatenation view over two rows, left then right. -/
def concat (l r : Row) : Row := ⟨l.fields ++ r.fields⟩

/-- Modelled from the spec: in-place update of a simple row at an index. -/
def updateField (r : Row) (i : Nat) (v : Literal) : Except EvalFail Row :=
  if i < r.fields.length then .ok ⟨r.fields.set i v⟩
  else .error (.err (.unknown "index out of bound"))

end Row

/-- Expression enum, translated from `src/expressions.rs`.  The resolved
`Function(Rc<dyn Function>)` payload is modelled as the name/argument pair the
built-in `AggFunction` carries, which is the form `HashAggregator` matches on. -/
inductive Expression
  | lit (l : Literal)
  | unResolvedFieldRef (name : String)
  | fieldRef (name : String) (index : Nat) (dataType : DataType)
  | alias (a : String) (child : Expression)
  | binaryOp (op : BinaryOp) (left right : Expression)
  | unaryOp (op : UnaryOp) (input : Expression)
  | unResolvedFunction (name : String) (args : List Expression)
  | func (name : String) (args : List Expression)
  | wildcard

namespace Expression

/-- Display form (Rust `Display` impl for `Expression`). -/
def display : Expression → String
  | .lit l => l.display
  | .unResolvedFieldRef name => name
  | .fieldRef name _ _ => name
  | .alias a _ => a
  | .binaryOp op l r => l.display ++ "_" ++ op.display ++ "_" ++ r.display
  | .unaryOp .not i => "NOT_" ++ i.display
  | .unaryOp .neg i => "-_" ++ i.display
  | .unResolvedFunction name args =>
      name ++ "(" ++ String.intercalate ", "
        (args.attach.map fun a => display a.1) ++ ")"
  | .func name args =>
      name ++ "(" ++ String.intercalate ", "
        (args.attach.map fun a => display a.1) ++ ")"
  | .wildcard => "*"
  decreasing_by
  all_goals simp_wf
  all_goals first
    | omega
    | (have h9 := List.sizeOf_lt_of_mem a.2; omega)

/-- Expression::data_type, translated from `src/expressions.rs`.  The `func`
case inlines the `data_type_extractor` each entry of `FunctionsRegistry::new`
installs (`src/functions.rs`): sum, min and max take the argument's type, avg
is Float64, count is UInt64. -/
def dataType : Expression → DataType
  | .lit l => l.dataType
  | .unResolvedFieldRef _ => .unknown
  | .fieldRef _ _ t => t
  | .binaryOp op l _ =>
      match op with
      | .gt | .gte | .eq | .lt | .lte | .and | .or => .boolean
      | _ => l.dataType
  | .unaryOp _ i => i.dataType
  | .alias _ c => c.dataType
  | .unResolvedFunction _ _ => .unknown
  | .func name args =>
      if name = "sum" ∨ name = "min" ∨ name = "max" then
        match args with
        | [a] => dataType a
        | _ => .unknown
      else if name = "avg" then .float64
      else if name = "count" then .uint64
      else .unknown
  | .wildcard => .unknown

end Expression

/-- Error message the interpreter impls build via
`format!("{:?} operator not implemented for {:?} and {:?}", op, left, right)`
(`src/interpreter/arithmetic.rs`, `src/interpreter/booleans.rs`). -/
def notImplMsg (op : BinaryOp) (l r : Literal) : String :=
  op.debugRepr ++ " operator not implemented for " ++ l.debugRepr ++ " and " ++ r.debugRepr

/-- plus_impl, translated from `src/interpreter/arithmetic.rs`; overflow wraps
(release-mode semantics). -/
def plusImpl (left right : Literal) : Except EvalFail Literal :=
  match left, right with
  | .int8 l, .int8 r => .ok (.int8 (wrapS 8 (l + r)))
  | .int16 l, .int16 r => .ok (.int16 (wrapS 16 (l + r)))
  | .int32 l, .int32 r => .ok (.int32 (wrapS 32 (l + r)))
  | .int64 l, .int64 r => .ok (.int64 (wrapS 64 (l + r)))
  | .uint8 l, .uint8 r => .ok (.uint8 (wrapU 8 (l + r)))
  | .uint16 l, .uint16 r => .ok (.uint16 (wrapU 16 (l + r)))
  | .uint32 l, .uint32 r => .ok (.uint32 (wrapU 32 (l + r)))
  | .uint64 l, .uint64 r => .ok (.uint64 (wrapU 64 (l + r)))
  | .float32 l, .float32 r => .ok (.float32 (l + r))
  | .float64 l, .float64 r => .ok (.float64 (l + r))
  | l, r => .error (.err (.interpretingError (notImplMsg .plus l r)))

/-- minus_impl, translated from `src/interpreter/arithmetic.rs`; unsigned
subtraction wraps modulo `2^w`. -/
def minusImpl (left right : Literal) : Except EvalFail Literal :=
  match left, right with
  | .int8 l, .int8 r => .ok (.int8 (wrapS 8 (l - r)))
  | .int16 l, .int16 r => .ok (.int16 (wrapS 16 (l - r)))
  | .int32 l, .int32 r => .ok (.int32 (wrapS 32 (l - r)))
  | .int64 l, .int64 r => .ok (.int64 (wrapS 64 (l - r)))
  | .uint8 l, .uint8 r => .ok (.uint8 (wrapU 8 (l + 2 ^ 8 - r)))
  | .uint16 l, .uint16 r => .ok (.uint16 (wrapU 16 (l + 2 ^ 16 - r)))
  | .uint32 l, .uint32 r => .ok (.uint32 (wrapU 32 (l + 2 ^ 32 - r)))
  | .uint64 l, .uint64 r => .ok (.uint64 (wrapU 64 (l + 2 ^ 64 - r)))
  | .float32 l, .float32 r => .ok (.float32 (l - r))
  | .float64 l, .float64 r => .ok (.float64 (l - r))
  | l, r => .error (.err (.interpretingError (notImplMsg .minus l r)))

/-- divide_impl, translated from `src/interpreter/arithmetic.rs`.  Integer
division truncates toward zero; a zero divisor (or signed `MIN / -1`) panics
in Rust in every build mode, modelled by the `panicked` failure.  Float
division is exact rational division (the IEEE `±inf`/`NaN` results of a zero
divisor are outside this model; no claim exercises them). -/
def divideImpl (left right : Literal) : Except EvalFail Literal :=
  match left, right with
  | .int8 l, .int8 r =>
      if r = 0 then .error (.panicked "attempt to divide by zero")
      else if l = -(2 ^ 7) ∧ r = -1 then .error (.panicked "attempt to divide with overflow")
      else .ok (.int8 (l.tdiv r))
  | .int16 l, .int16 r =>
      if r = 0 then .error (.panicked "attempt to divide by zero")
      else if l = -(2 ^ 15) ∧ r = -1 then .error (.panicked "attempt to divide with overflow")
      else .ok (.int16 (l.tdiv r))
  | .int32 l, .int32 r =>
      if r = 0 then .error (.panicked "attempt to divide by zero")
      else if l = -(2 ^ 31) ∧ r = -1 then .error (.panicked "attempt to divide with overflow")
      else .ok (.int32 (l.tdiv r))
  | .int64 l, .int64 r =>
      if r = 0 then .error (.panicked "attempt to divide by zero")
      else if l = -(2 ^ 63) ∧ r = -1 then .error (.panicked "attempt to divide with overflow")
      else .ok (.int64 (l.tdiv r))
  | .uint8 l, .uint8 r =>
      if r = 0 then .error (.panicked "attempt to divide by zero") else .ok (.uint8 (l / r))
  | .uint16 l, .uint16 r =>
      if r = 0 then .error (.panicked "attempt to divide by zero") else .ok (.uint16 (l / r))
  | .uint32 l, .uint32 r =>
      if r = 0 then .error (.panicked "attempt to divide by zero") else .ok (.uint32 (l / r))
  | .uint64 l, .uint64 r =>
      if r = 0 then .error (.panicked "attempt to divide by zero") else .ok (.uint64 (l / r))
  | .float32 l, .float32 r => .ok (.float32 (l / r))
  | .float64 l, .float64 r => .ok (.float64 (l / r))
  | l, r => .error (.err (.interpretingError (notImplMsg .divide l r)))

/-- multiply_impl, translated from `src/interpreter/arithmetic.rs`. -/
def multiplyImpl (left right : Literal) : Except EvalFail Literal :=
  match left, right with
  | .int8 l, .int8 r => .ok (.int8 (wrapS 8 (l * r)))
  | .int16 l, .int16 r => .ok (.int16 (wrapS 16 (l * r)))
  | .int32 l, .int32 r => .ok (.int32 (wrapS 32 (l * r)))
  | .int64 l, .int64 r => .ok (.int64 (wrapS 64 (l * r)))
  | .uint8 l, .uint8 r => .ok (.uint8 (wrapU 8 (l * r)))
  | .uint16 l, .uint16 r => .ok (.uint16 (wrapU 16 (l * r)))
  | .uint32 l, .uint32 r => .ok (.uint32 (wrapU 32 (l * r)))
  | .uint64 l, .uint64 r => .ok (.uint64 (wrapU 64 (l * r)))
  | .float32 l, .float32 r => .ok (.float32 (l * r))
  | .float64 l, .float64 r => .ok (.float64 (l * r))
  | l, r => .error (.err (.interpretingError (notImplMsg .multiply l r)))

/-- negative_impl, translated from `src/interpreter/arithmetic.rs`. -/
def negativeImpl (input : Literal) : Except EvalFail Literal :=
  match input with
  | .int8 v => .ok (.int8 (wrapS 8 (-v)))
  | .int16 v => .ok (.int16 (wrapS 16 (-v)))
  | .int32 v => .ok (.int32 (wrapS 32 (-v)))
  | .int64 v => .ok (.int64 (wrapS 64 (-v)))
  | .float32 v => .ok (.float32 (-v))
  | .float64 v => .ok (.float64 (-v))
  | v => .error (.err (.interpretingError
      ("Neg operator not implemented for " ++ v.debugRepr)))

/-- Shared shape of the boolean comparison impls of
`src/interpreter/booleans.rs`: same numeric tag compares payloads, anything
else is an interpreting error naming the operator. -/
def cmpBoolImpl (op : BinaryOp) (natCmp : Nat → Nat → Bool) (intCmp : Int → Int → Bool)
    (ratCmp : Rat → Rat → Bool) (left right : Literal) : Except EvalFail Literal :=
  match left, right with
  | .int8 l, .int8 r => .ok (.bool (intCmp l r))
  | .int16 l, .int16 r => .ok (.bool (intCmp l r))
  | .int32 l, .int32 r => .ok (.bool (intCmp l r))
  | .int64 l, .int64 r => .ok (.bool (intCmp l r))
  | .uint8 l, .uint8 r => .ok (.bool (natCmp l r))
  | .uint16 l, .uint16 r => .ok (.bool (natCmp l r))
  | .uint32 l, .uint32 r => .ok (.bool (natCmp l r))
  | .uint64 l, .uint64 r => .ok (.bool (natCmp l r))
  | .float32 l, .float32 r => .ok (.bool (ratCmp l r))
  | .float64 l, .float64 r => .ok (.bool (ratCmp l r))
  | l, r => .error (.err (.interpretingError (notImplMsg op l r)))

/-- gt_impl, translated from `src/interpreter/booleans.rs`. -/
def gtImpl (l r : Literal) : Except EvalFail Literal :=
  cmpBoolImpl .gt (· > ·) (· > ·) (· > ·) l r

/-- gte_impl, translated from `src/interpreter/booleans.rs`. -/
def gteImpl (l r : Literal) : Except EvalFail Literal :=
  cmpBoolImpl .gte (· ≥ ·) (· ≥ ·) (· ≥ ·) l r

/-- eq_impl, translated from `src/interpreter/booleans.rs`. -/
def eqImpl (l r : Literal) : Except EvalFail Literal :=
  cmpBoolImpl .eq (· = ·) (· = ·) (· = ·) l r

/-- lt_impl, translated from `src/interpreter/booleans.rs`. -/
def ltImpl (l r : Literal) : Except EvalFail Literal :=
  cmpBoolImpl .lt (· < ·) (· < ·) (· < ·) l r

/-- lte_impl, translated from `src/interpreter/booleans.rs`. -/
def lteImpl (l r : Literal) : Except EvalFail Literal :=
  cmpBoolImpl .lte (· ≤ ·) (· ≤ ·) (· ≤ ·) l r

/-- and_impl, translated from `src/interpreter/booleans.rs`. -/
def andImpl (left right : Literal) : Except EvalFail Literal :=
  match left, right with
  | .bool l, .bool r => .ok (.bool (l && r))
  | l, r => .error (.err (.interpretingError (notImplMsg .and l r)))

/-- or_impl, translated from `src/interpreter/booleans.rs`. -/
def orImpl (left right : Literal) : Except EvalFail Literal :=
  match left, right with
  | .bool l, .bool r => .ok (.bool (l || r))
  | l, r => .error (.err (.interpretingError (notImplMsg .or l r)))

/-- not_impl, translated from `src/interpreter/booleans.rs`. -/
def notImpl (input : Literal) : Except EvalFail Literal :=
  match input with
  | .bool v => .ok (.bool (!v))
  | v => .error (.err (.interpretingError
      ("Not operator not implemented for " ++ v.debugRepr)))

/-- Modelled from the spec: `max_impl` is referenced by `src/interpreter.rs`
but its definition is not in the source snapshot; per the spec the `Max`
binary operator selects the larger operand (same numeric tag). -/
def maxImpl (left right : Literal) : Except EvalFail Literal :=
  match left, right with
  | .int8 l, .int8 r => .ok (.int8 (Max.max l r))
  | .int16 l, .int16 r => .ok (.int16 (Max.max l r))
  | .int32 l, .int32 r => .ok (.int32 (Max.max l r))
  | .int64 l, .int64 r => .ok (.int64 (Max.max l r))
  | .uint8 l, .uint8 r => .ok (.uint8 (Max.max l r))
  | .uint16 l, .uint16 r => .ok (.uint16 (Max.max l r))
  | .uint32 l, .uint32 r => .ok (.uint32 (Max.max l r))
  | .uint64 l, .uint64 r => .ok (.uint64 (Max.max l r))
  | .float32 l, .float32 r => .ok (.float32 (Max.max l r))
  | .float64 l, .float64 r => .ok (.float64 (Max.max l r))
  | l, r => .error (.err (.interpretingError (notImplMsg .max l r)))

/-- Modelled from the spec: `min_impl` selects the smaller operand; see
`maxImpl`. -/
def minImpl (left right : Literal) : Except EvalFail Literal :=
  match left, right with
  | .int8 l, .int8 r => .ok (.int8 (Min.min l r))
  | .int16 l, .int16 r => .ok (.int16 (Min.min l r))
  | .int32 l, .int32 r => .ok (.int32 (Min.min l r))
  | .int64 l, .int64 r => .ok (.int64 (Min.min l r))
  | .uint8 l, .uint8 r => .ok (.uint8 (Min.min l r))
  | .uint16 l, .uint16 r => .ok (.uint16 (Min.min l r))
  | .uint32 l, .uint32 r => .ok (.uint32 (Min.min l r))
  | .uint64 l, .uint64 r => .ok (.uint64 (Min.min l r))
  | .float32 l, .float32 r => .ok (.float32 (Min.min l r))
  | .float64 l, .float64 r => .ok (.float64 (Min.min l r))
  | l, r => .error (.err (.interpretingError (notImplMsg .min l r)))

namespace Interpreter

/-- Interpreter::eval, translated from `src/interpreter.rs`.  The
`Function(_)` and `Wildcard` arms are `todo!()` in the source, i.e. panics. -/
def eval (expr : Expression) (row : Row) : Except EvalFail Literal :=
  match expr with
  | .lit l => .ok l
  | .unResolvedFieldRef _ =>
      .error (.err (.unknown "Trying evaluate an unresolved expression."))
  | .fieldRef _ index _ => row.getField index
  | .binaryOp op left right => do
      let l ← eval left row
      let r ← eval right row
      match op with
      | .plus => plusImpl l r
      | .minus => minusImpl l r
      | .divide => divideImpl l r
      | .multiply => multiplyImpl l r
      | .gt => gtImpl l r
      | .gte => gteImpl l r
      | .eq => eqImpl l r
      | .lt => ltImpl l r
      | .lte => lteImpl l r
      | .and => andImpl l r
      | .or => orImpl l r
      | .max => maxImpl l r
      | .min => minImpl l r
  | .unaryOp .not input => do notImpl (← eval input row)
  | .unaryOp .neg input => do negativeImpl (← eval input row)
  | .alias _ child => eval child row
  | .unResolvedFunction _ _ =>
      .error (.err (.interpretingError "Trying evaluate an unresolved function"))
  | .func _ _ => .error (.panicked "not yet implemented")
  | .wildcard => .error (.panicked "not yet implemented")

end Interpreter

/-- Expression::transform_bottom_up, translated from `src/expressions.rs`:
recurse into children, reconstruct the node when any child changed, then call
the visitor on the (possibly new) node; `none` from the visitor with changed
children still yields the reconstructed node.  The visitor's context is baked
into `f`. -/
def Expression.transformBottomUp (f : Expression → Except EvalFail (Option Expression)) :
    Expression → Except EvalFail (Option Expression)
  | e@(.lit _) => f e
  | e@(.unResolvedFieldRef _) => f e
  | e@(.fieldRef _ _ _) => f e
  | e@(.wildcard) => f e
  | e@(.binaryOp op l r) => do
      let cl ← Expression.transformBottomUp f l
      let cr ← Expression.transformBottomUp f r
      if cl.isSome ∨ cr.isSome then
        let updated := Expression.binaryOp op (cl.getD l) (cr.getD r)
        match ← f updated with
        | some u => pure (some u)
        | none => pure (some updated)
      else f e
  | e@(.unaryOp op input) => do
      let ci ← Expression.transformBottomUp f input
      match ci with
      | some i2 => do
          let updated := Expression.unaryOp op i2
          match ← f updated with
          | some u => pure (some u)
          | none => pure (some updated)
      | none => f e
  | e@(.alias a child) => do
      let cc ← Expression.transformBottomUp f child
      match cc with
      | some c2 => do
          let updated := Expression.alias a c2
          match ← f updated with
          | some u => pure (some u)
          | none => pure (some updated)
      | none => f e
  | e@(.unResolvedFunction name args) => do
      let results ← args.attach.mapM (fun a => Expression.transformBottomUp f a.1)
      if results.any Option.isSome then
        let updated := Expression.unResolvedFunction name
          (List.zipWith (fun r c => r.getD c) results args)
        match ← f updated with
        | some u => pure (some u)
        | none => pure (some updated)
      else f e
  | e@(.func name args) => do
      let results ← args.attach.mapM (fun a => Expression.transformBottomUp f a.1)
      if results.any Option.isSome then
        let updated := Expression.func name
          (List.zipWith (fun r c => r.getD c) results args)
        match ← f updated with
        | some u => pure (some u)
        | none => pure (some updated)
      else f e
  decreasing_by
  all_goals simp_wf
  all_goals first
    | omega
    | (have h9 := List.sizeOf_lt_of_mem a.2; omega)

/-- First field with a given name in a field list, together with its index
(first match wins, as in the Rust `position`-based lookups). -/
def findField : List FieldInfo → String → Option (Nat × DataType)
  | [], _ => none
  | fi :: rest, n =>
      if fi.name = n then some (0, fi.dataType)
      else (findField rest n).map (fun p => (p.1 + 1, p.2))

/-- Modelled from the spec: the current `ResolveExprRule::resolve_expression`
(the one `SumAgg`/`AvgAgg` call during `resolve_expr`) is not in the source
snapshot, which holds an earlier revision of that rule.  Per the spec it turns
`UnresolvedFieldRef(name)` into `FieldRef{name, index, type}` using the
contextual schema, refreshes a `FieldRef` whose type is `Unknown` but whose
index points at a typed field, and leaves missing names unresolved. -/
def resolveExpressionSpec (schema : RelationSchema) (e : Expression) :
    Except EvalFail (Option Expression) :=
  match e with
  | .unResolvedFieldRef name =>
      match findField schema.fields name with
      | some (idx, t) => .ok (some (.fieldRef name idx t))
      | none => .ok none
  | .fieldRef name idx .unknown =>
      match schema.fields.get? idx with
      | some fi =>
          if fi.dataType = .unknown then .ok none
          else .ok (some (.fieldRef name idx fi.dataType))
      | none => .ok none
  | _ => .ok none

/-- Field references of an expression that the interpreter actually reads are
all below `n` (function arguments are never read by `eval`, whose resolved
function arm is `todo!()`). -/
def Expression.refsBelow (n : Nat) : Expression → Bool
  | .lit _ => true
  | .unResolvedFieldRef _ => true
  | .fieldRef _ index _ => index < n
  | .binaryOp _ l r => l.refsBelow n && r.refsBelow n
  | .unaryOp _ i => i.refsBelow n
  | .alias _ c => c.refsBelow n
  | .unResolvedFunction _ _ => true
  | .func _ _ => true
  | .wildcard => true

/-- SumAgg, translated from `src/aggregators/sum_agg.rs`. -/
structure SumAgg where
  sumExpr : Expression
  dataType : DataType

namespace SumAgg

/-- SumAgg::new: the buffer expression is `arg + UnResolvedFieldRef("sum_agg_sum")`. -/
def new (expr : Expression) : SumAgg :=
  ⟨.binaryOp .plus expr (.unResolvedFieldRef "sum_agg_sum"), expr.dataType⟩

/-- SumAgg::initial_row: one scratch cell holding `zero(argT)`. -/
def initialRow (a : SumAgg) : Except EvalFail Row := do
  let z ← a.dataType.zero
  pure ⟨[z]⟩

/-- SumAgg::resolve_expr: resolve the buffer expression against the inbound
schema extended with the `sum_agg_sum : Float64` scratch field. -/
def resolveExpr (a : SumAgg) (inbound : RelationSchema) : Except EvalFail SumAgg := do
  let schema : RelationSchema := ⟨inbound.fields ++ [⟨"sum_agg_sum", .float64⟩]⟩
  match ← a.sumExpr.transformBottomUp (resolveExpressionSpec schema) with
  | some newExpr => pure ⟨newExpr, a.dataType⟩
  | none => .error (.err (.interpretingError "Cannot resolve sum agg expr"))

/-- SumAgg::process: evaluate the buffer expression over `input ⊕ scratch` and
write the value back into scratch cell 0. -/
def process (a : SumAgg) (input result : Row) : Except EvalFail Row := do
  let v ← Interpreter.eval a.sumExpr (Row.concat input result)
  result.updateField 0 v

/-- SumAgg::result: scratch cell 0. -/
def result (_ : SumAgg) (row : Row) : Except EvalFail Literal := row.getField 0

end SumAgg

/-- AvgAgg, translated from `src/aggregators/avg_agg.rs`. -/
structure AvgAgg where
  countExpr : Expression
  sumExpr : Expression

namespace AvgAgg

/-- AvgAgg::new: sum and count buffer expressions over the scratch fields
`avg_sum` and `avg_count`. -/
def new (input : Expression) : AvgAgg :=
  ⟨.binaryOp .plus (.lit (.uint64 1)) (.unResolvedFieldRef "avg_count"),
   .binaryOp .plus input (.unResolvedFieldRef "avg_sum")⟩

/-- AvgAgg::initial_row. -/
def initialRow (_ : AvgAgg) : Except EvalFail Row :=
  .ok ⟨[.float64 0, .uint64 0]⟩

/-- AvgAgg::resolve_expr. -/
def resolveExpr (a : AvgAgg) (inbound : RelationSchema) : Except EvalFail AvgAgg := do
  let schema : RelationSchema :=
    ⟨inbound.fields ++ [⟨"avg_sum", .float64⟩, ⟨"avg_count", .uint64⟩]⟩
  let newSum ←
    match ← a.sumExpr.transformBottomUp (resolveExpressionSpec schema) with
    | some e => pure e
    | none => .error (.err (.interpretingError "Cannot resolve avg agg expr"))
  let newCount ←
    match ← a.countExpr.transformBottomUp (resolveExpressionSpec schema) with
    | some e => pure e
    | none => .error (.err (.interpretingError "Cannot resolve avg agg expr"))
  pure ⟨newCount, newSum⟩

/-- AvgAgg::process. -/
def process (a : AvgAgg) (input result : Row) : Except EvalFail Row := do
  let target := Row.concat input result
  let count ← Interpreter.eval a.countExpr target
  let sum ← Interpreter.eval a.sumExpr target
  let r1 ← result.updateField 0 sum
  r1.updateField 1 count

/-- AvgAgg::result: `sum / count` as Float64 (rational division in the model;
the IEEE `NaN` of an empty group is outside the model). -/
def result (_ : AvgAgg) (row : Row) : Except EvalFail Literal := do
  match ← row.getField 0, ← row.getField 1 with
  | .float64 s, .uint64 c => pure (.float64 (s / (c : Rat)))
  | _, _ => .error (.err (.unknown "should never happen."))

end AvgAgg

/-- Runtime aggregator dispatch (the `Box<dyn Aggregator>` of
`src/aggregators.rs`; only SumAgg and AvgAgg are ever constructed by
`HashAggregator::new_aggregators`). -/
inductive AggState
  | sum (a : SumAgg)
  | avg (a : AvgAgg)

namespace AggState

/-- Aggregator::initial_row dispatch. -/
def initialRow : AggState → Except EvalFail Row
  | .sum a => a.initialRow
  | .avg a => a.initialRow

/-- Aggregator::resolve_expr dispatch. -/
def resolveExpr (s : AggState) (inbound : RelationSchema) : Except EvalFail AggState :=
  match s with
  | .sum a => do pure (.sum (← a.resolveExpr inbound))
  | .avg a => do pure (.avg (← a.resolveExpr inbound))

/-- Aggregator::process dispatch. -/
def process (s : AggState) (input result : Row) : Except EvalFail Row :=
  match s with
  | .sum a => a.process input result
  | .avg a => a.process input result

/-- Aggregator::result dispatch. -/
def result (s : AggState) (row : Row) : Except EvalFail Literal :=
  match s with
  | .sum a => a.result row
  | .avg a => a.result row

end AggState

namespace HashAggregator

/-- HashAggregator::new_aggregators, translated from
`src/physical_plans/hash_aggregator.rs`: only `sum` and `avg` are handled,
every other aggregator expression fails with `unsupported agg`. -/
def newAggregators (aggregatorExprs : List Expression) : Except EvalFail (List AggState) :=
  aggregatorExprs.mapM fun aggExpr =>
    match aggExpr with
    | .func name args =>
        if lowercase name = "sum" then
          match args with
          | [a] => .ok (.sum (SumAgg.new a))
          | _ => .error (.err (.unknown "invalid args for sum agg"))
        else if lowercase name = "avg" then
          match args with
          | [a] => .ok (.avg (AvgAgg.new a))
          | _ => .error (.err (.unknown "invalid args for avg agg"))
        else .error (.err (.unknown ("unsupported agg: " ++ name)))
    | other => .error (.err (.unknown ("unsupported agg: " ++ other.display)))

/-- HashAggregator::setup: build the aggregators and resolve each buffer
expression against the child's schema. -/
def setup (aggregatorExprs : List Expression) (childSchema : RelationSchema) :
    Except EvalFail (List AggState) := do
  let aggs ← newAggregators aggregatorExprs
  aggs.mapM (fun a => a.resolveExpr childSchema)

/-- HashAggregator::process: run every aggregator's step against its scratch
row (the `zip` of aggregators and result rows). -/
def processAll (aggs : List AggState) (input : Row) (resultRows : List Row) :
    Except EvalFail (List Row) :=
  (aggs.zip resultRows).mapM (fun p => p.1.process input p.2)

/-- First value bound to a key in the association-list model of the buffer
`HashMap`. -/
def assocFind (buffers : List (List Literal × List Row)) (key : List Literal) :
    Option (List Row) :=
  (buffers.find? (fun p => p.1 = key)).map (·.2)

/-- Replacement of the value bound to a key in the association-list model. -/
def assocSet (buffers : List (List Literal × List Row)) (key : List Literal)
    (v : List Row) : List (List Literal × List Row) :=
  buffers.map (fun p => if p.1 = key then (p.1, v) else p)

/-- Pull phase of HashAggregator::pull: drain the child rows into the buffer
map (keyed by the evaluated grouping expressions, association list standing in
for the `HashMap`; its iteration order, unspecified in Rust, is modelled as
insertion order). -/
def pullLoop (aggs : List AggState) (groupingExprs : List Expression) :
    List Row → List (List Literal × List Row) →
    Except EvalFail (List (List Literal × List Row))
  | [], buffers => .ok buffers
  | row :: rest, buffers => do
      let key ← groupingExprs.mapM (fun e => Interpreter.eval e row)
      match assocFind buffers key with
      | some resultRows => do
          let newRows ← processAll aggs row resultRows
          pullLoop aggs groupingExprs rest (assocSet buffers key newRows)
      | none => do
          let init ← aggs.mapM (·.initialRow)
          let newRows ← processAll aggs row init
          pullLoop aggs groupingExprs rest (buffers ++ [(key, newRows)])

/-- Push phase (HashAggregator::try_push over the whole buffer iterator): each
entry is finalized into a row built as aggregator results first, then the
grouping values appended (`aggs.extend(groupings)` in the source). -/
def tryPushAll (aggs : List AggState) (buffers : List (List Literal × List Row)) :
    Except EvalFail (List Row) :=
  buffers.mapM fun entry => do
    let results ← (aggs.zip entry.2).mapM (fun p => p.1.result p.2)
    pure (Row.mk (results ++ entry.1))

/-- End-to-end run of the HashAggregator operator over a fully drained child:
setup, pull, then drain the push iterator. -/
def run (aggregatorExprs groupingExprs : List Expression)
    (childSchema : RelationSchema) (rows : List Row) : Except EvalFail (List Row) := do
  let aggs ← setup aggregatorExprs childSchema
  let buffers ← pullLoop aggs groupingExprs rows []
  tryPushAll aggs buffers

/-- HashAggregator::schema, translated from
`src/physical_plans/hash_aggregator.rs`: aggregator expressions chained before
grouping expressions. -/
def schema (aggregatorExprs groupingExprs : List Expression) : RelationSchema :=
  ⟨(aggregatorExprs ++ groupingExprs).map (fun e => ⟨e.display, e.dataType⟩)⟩

end HashAggregator

/-- aggregator_schema, translated from `src/aggregators.rs`: groupings first,
then aggregators, each field named by the expression's display form. -/
def aggregatorSchema (groupings aggregators : List Expression) : RelationSchema :=
  ⟨(groupings ++ aggregators).map (fun e => ⟨e.display, e.dataType⟩)⟩

/-- SortOption, translated from `src/logical_plans.rs`. -/
structure SortOption where
  expr : Expression
  asc : Bool

/-- Three-way comparison from a decidable strict order. -/
def cmpVia {α : Type} [LT α] [DecidableRel ((· < ·) : α → α → Prop)] (a b : α) : Ordering :=
  if a < b then .lt else if b < a then .gt else .eq

/-- Modelled from the spec: `cmp_impl` is referenced by
`src/physical_plans/sort.rs` but absent from the source snapshot.  Per the
spec, comparison requires both sides to share a tag, uses the total order of
integers and strings and the numeric order of floats; any other pair is an
error (`none` here). -/
def cmpLit (left right : Literal) : Option Ordering :=
  match left, right with
  | .int8 l, .int8 r => some (cmpVia l r)
  | .int16 l, .int16 r => some (cmpVia l r)
  | .int32 l, .int32 r => some (cmpVia l r)
  | .int64 l, .int64 r => some (cmpVia l r)
  | .uint8 l, .uint8 r => some (cmpVia l r)
  | .uint16 l, .uint16 r => some (cmpVia l r)
  | .uint32 l, .uint32 r => some (cmpVia l r)
  | .uint64 l, .uint64 r => some (cmpVia l r)
  | .float32 l, .float32 r => some (cmpVia l r)
  | .float64 l, .float64 r => some (cmpVia l r)
  | .string l, .string r => some (cmpVia l r)
  | _, _ => none

namespace SortOp

/-- Sort::sort, translated from `src/physical_plans/sort.rs`: per-option
comparison; ascending compares `(left, right)`, descending flips the operands.
`none` stands for the `unwrap` panic when evaluation or comparison fails. -/
def optionCmp (opt : SortOption) (left right : Row) : Option Ordering :=
  match Interpreter.eval opt.expr left, Interpreter.eval opt.expr right with
  | .ok lv, .ok rv => if opt.asc then cmpLit lv rv else cmpLit rv lv
  | _, _ => none

/-- Comparator of Sort::try_pull: lazily find the first non-equal per-option
ordering, defaulting to `Equal` (the `map`/`find`/`unwrap_or` chain). -/
def rowCmp (opts : List SortOption) (left right : Row) : Option Ordering :=
  match opts with
  | [] => some .eq
  | o :: os =>
      match optionCmp o left right with
      | none => none
      | some v => if v = .eq then rowCmp os left right else some v

/-- Boolean `is-before-or-equivalent` relation derived from the comparator
(the relation a stable ascending sort establishes); unreachable panic cases
are totalized to `Equal`. -/
def sortLe (opts : List SortOption) (left right : Row) : Bool :=
  (rowCmp opts left right).getD .eq ≠ .gt

/-- Output of the Sort operator: the fully drained child buffer, sorted with
the stable comparator-driven sort (`Vec::sort_by` is a stable sort; modelled
with insertion sort, which is stable). -/
def output (opts : List SortOption) (rows : List Row) : List Row :=
  rows.insertionSort (fun a b => sortLe opts a b = true)

end SortOp

/-- Modelled from the spec: `LimitOption` is referenced by
`src/physical_plans/limit.rs` but defined in a revision of
`src/logical_plans.rs` absent from the snapshot; per the spec the limit is
either a number or `All`. -/
inductive LimitOption
  | num (n : Nat)
  | all

namespace Limit

/-- Limit::has_next, translated from `src/physical_plans/limit.rs`. -/
def hasNext (offset : Nat) (limit : LimitOption) (pos : Nat) : Bool :=
  (match limit with
   | .num v => decide (pos < offset + v)
   | .all => true) && decide (pos ≥ offset)

/-- Loop of Limit::next over a fully drained child, carrying the `pos` state:
skip while below the offset, emit while `has_next`, stop otherwise. -/
def nextLoop (offset : Nat) (limit : LimitOption) : Nat → List Row → List Row
  | _, [] => []
  | pos, r :: rest =>
      if pos < offset then nextLoop offset limit (pos + 1) rest
      else if hasNext offset limit pos then r :: nextLoop offset limit (pos + 1) rest
      else []

/-- Rows the Limit operator emits, starting from `pos = 0`. -/
def run (offset : Nat) (limit : LimitOption) (rows : List Row) : List Row :=
  nextLoop offset limit 0 rows

end Limit

/-- Trailing `'0'` characters removed (Rust `str::trim_end_matches('0')`). -/
def trimTrailingZeros (cs : List Char) : List Char :=
  (cs.reverse.dropWhile (· = '0')).reverse

/-- Characters after the first `'.'` (empty when there is no dot); the second
component of Rust `str::split_once('.')`. -/
def afterFirstDot (cs : List Char) : List Char :=
  (cs.dropWhile (· ≠ '.')).drop 1

/-- looks_like_float, translated from `src/expressions.rs`: the text contains
a dot and, after trimming trailing zeros, the part following the first dot is
non-empty. -/
def looksLikeFloat (v : String) : Bool :=
  v.toList.contains '.' &&
    (let t := trimTrailingZeros v.toList
     t.contains '.' && !(afterFirstDot t).isEmpty)

/-- Numeric value of a non-empty all-digit character list. -/
def digitsToNat (cs : List Char) : Option Nat :=
  if cs ≠ [] ∧ cs.all Char.isDigit then
    some (cs.foldl (fun acc c => acc * 10 + (c.toNat - '0'.toNat)) 0)
  else none

/-- Rust `str::parse::<u64>`: optional leading `+`, decimal digits, value
must fit in 64 bits (`none` covers both invalid digits and overflow). -/
def parseU64 (s : String) : Option Nat :=
  let cs := match s.toList with
    | '+' :: rest => rest
    | cs => cs
  (digitsToNat cs).filter (· < 2 ^ 64)

/-- Rust `str::parse::<i64>`: optional sign, decimal digits, value must fit
in the signed 64-bit range. -/
def parseI64 (s : String) : Option Int :=
  match s.toList with
  | '-' :: rest => (digitsToNat rest).bind fun n =>
      if (n : Int) ≤ 2 ^ 63 then some (-(n : Int)) else none
  | '+' :: rest => (digitsToNat rest).bind fun n =>
      if n < 2 ^ 63 then some (n : Int) else none
  | cs => (digitsToNat cs).bind fun n =>
      if n < 2 ^ 63 then some (n : Int) else none

/-- Rust `str::parse::<f64>` restricted to plain decimal notation (optional
sign, digits, optional dot and fraction digits), returning the exact rational
value; exponent, `inf` and `nan` forms are outside the model and no claim
exercises them. -/
def parseF64Q (s : String) : Option Rat :=
  let signedVal : List Char → Option Rat := fun cs =>
    let ip := cs.takeWhile Char.isDigit
    let rest := cs.drop ip.length
    match rest with
    | [] =>
        if ip ≠ [] then
          some ((digitsToNat ip).getD 0 : Nat)
        else none
    | '.' :: fp =>
        if fp.all Char.isDigit ∧ (ip ≠ [] ∨ fp ≠ []) then
          some (((ip.foldl (fun acc c => acc * 10 + (c.toNat - '0'.toNat)) 0 : Nat) : Rat) +
            ((fp.foldl (fun acc c => acc * 10 + (c.toNat - '0'.toNat)) 0 : Nat) : Rat) /
              ((10 : Rat) ^ fp.length))
        else none
    | _ => none
  match s.toList with
  | '-' :: rest => (signedVal rest).map (fun q => -q)
  | '+' :: rest => signedVal rest
  | cs => signedVal cs

/-- parse_number, translated from `src/expressions.rs`: unsigned targets parse
as `u64` and keep the target type when the value fits its bounds (otherwise
widen to `UInt64`), signed targets parse as `i64` likewise (widening to
`Int64`), floats parse as floats; a failed parse propagates the conversion of
`ParseIntError`/`ParseFloatError` into `DBError::ParserError` (the Rust error
detail suffix of the message is omitted in the model). -/
def parseNumber (dataType : DataType) (v : String) : Except DBError (Option Literal) :=
  match dataType with
  | .uint8 =>
      match parseU64 v with
      | some u => .ok (some (if u ≤ 255 then .uint8 u else .uint64 u))
      | none => .error (.parserError "cannot parse int number")
  | .uint16 =>
      match parseU64 v with
      | some u => .ok (some (if u ≤ 65535 then .uint16 u else .uint64 u))
      | none => .error (.parserError "cannot parse int number")
  | .uint32 =>
      match parseU64 v with
      | some u => .ok (some (if u ≤ 4294967295 then .uint32 u else .uint64 u))
      | none => .error (.parserError "cannot parse int number")
  | .uint64 =>
      match parseU64 v with
      | some u => .ok (some (.uint64 u))
      | none => .error (.parserError "cannot parse int number")
  | .int8 =>
      match parseI64 v with
      | some u => .ok (some (if -128 ≤ u ∧ u ≤ 127 then .int8 u else .int64 u))
      | none => .error (.parserError "cannot parse int number")
  | .int16 =>
      match parseI64 v with
      | some u => .ok (some (if -32768 ≤ u ∧ u ≤ 32767 then .int16 u else .int64 u))
      | none => .error (.parserError "cannot parse int number")
  | .int32 =>
      match parseI64 v with
      | some u =>
          .ok (some (if -2147483648 ≤ u ∧ u ≤ 2147483647 then .int32 u else .int64 u))
      | none => .error (.parserError "cannot parse int number")
  | .int64 =>
      match parseI64 v with
      | some u => .ok (some (.int64 u))
      | none => .error (.parserError "cannot parse int number")
  | .float32 =>
      match parseF64Q v with
      | some f => .ok (some (.float32 f))
      | none => .error (.parserError "cannot parse float number")
  | .float64 =>
      match parseF64Q v with
      | some f => .ok (some (.float64 f))
      | none => .error (.parserError "cannot parse float number")
  | _ => .ok none

/-- Literal::cast_or_maintain_precision, translated from
`src/expressions.rs`. -/
def Literal.castOrMaintainPrecision (l : Literal) (dataType : DataType) :
    Except DBError (Option Literal) :=
  match l with
  | .unResolvedNumber v =>
      if dataType.isInteger ∧ looksLikeFloat v then
        match parseF64Q v with
        | some f => .ok (some (.float64 f))
        | none => .error (.parserError "cannot parse float number")
      else parseNumber dataType v
  | .unResolvedString v =>
      match dataType with
      | .string => .ok (some (.string v))
      | .dateTime => .ok (some (.dateTime v))
      | _ => .ok none
  | _ => .ok none

namespace OldRules

/-!
The snapshot's `src/optimizer/rules/resolve_expr_rule.rs` (the file claim C9
cites) belongs to an earlier revision of the engine whose expression algebra
had tuple-style `FieldRef(index, type)` nodes and a dedicated `BooleanExpr`
tree.  That algebra is embedded here separately; the literal enum of that
revision is not in the snapshot and is reconstructed from the constructors the
rule itself uses (`UnResolvedNumber`, `UnResolvedString`, `Int`, plus
representative resolved payloads for the catch-all arm).
-/

/-- Literal enum of the earlier revision (partially reconstructed, see above). -/
inductive OldLiteral
  | unResolvedNumber (s : String)
  | unResolvedString (s : String)
  | int (v : Int)
  | str (v : String)
  | boolVal (b : Bool)
  deriving DecidableEq, Repr

mutual
/-- Expression enum of the earlier revision. -/
inductive OldExpression
  | lit (l : OldLiteral)
  | unResolvedFieldRef (name : String)
  | fieldRef (index : Nat) (dataType : DataType)
  | booleanExpr (b : OldBooleanExpr)
  deriving DecidableEq, Repr

/-- BooleanExpr enum of the earlier revision. -/
inductive OldBooleanExpr
  | gt (left right : OldExpression)
  | gte (left right : OldExpression)
  | eq (left right : OldExpression)
  | lt (left right : OldExpression)
  | lte (left right : OldExpression)
  deriving DecidableEq, Repr
end

/-- Rust `str::parse::<i32>`: optional sign, decimal digits, 32-bit signed
range. -/
def parseI32 (s : String) : Option Int :=
  match s.toList with
  | '-' :: rest => (digitsToNat rest).bind fun n =>
      if (n : Int) ≤ 2 ^ 31 then some (-(n : Int)) else none
  | '+' :: rest => (digitsToNat rest).bind fun n =>
      if n < 2 ^ 31 then some (n : Int) else none
  | cs => (digitsToNat cs).bind fun n =>
      if n < 2 ^ 31 then some (n : Int) else none

mutual
/-- ResolveExprRule::resolve_expression, translated from
`src/optimizer/rules/resolve_expr_rule.rs` (lines 85-128 of the snapshot):
unresolved numbers parse as `i32` (propagating the parse error), unresolved
strings become strings, a field reference found in the contextual schema
becomes `FieldRef(index, type)`, and a missing name fails with
`Unknown("Cannot find field …")`. -/
def resolveExpression (schema : RelationSchema) (node : OldExpression) :
    Except DBError (Option OldExpression) :=
  match node with
  | .lit (.unResolvedNumber s) =>
      match parseI32 s with
      | some v => .ok (some (.lit (.int v)))
      | none => .error (.parserError "cannot parse int number")
  | .lit (.unResolvedString s) => .ok (some (.lit (.str s)))
  | .lit _ => .ok none
  | .unResolvedFieldRef name =>
      match findField schema.fields name with
      | some (idx, t) => .ok (some (.fieldRef idx t))
      | none => .error (.unknown ("Cannot find field " ++ name))
  | .fieldRef _ _ => .ok none
  | .booleanExpr b => do
      match ← resolveBooleanExpression schema b with
      | some resolved => pure (some (.booleanExpr resolved))
      | none => pure none
  termination_by 3 * sizeOf node
  decreasing_by all_goals (simp_wf; omega)

/-- ResolveExprRule::resolve_boolean_expression (same file). -/
def resolveBooleanExpression (schema : RelationSchema) (expr : OldBooleanExpr) :
    Except DBError (Option OldBooleanExpr) :=
  match expr with
  | .gt l r => resolveBooleanHelper schema l r .gt
  | .gte l r => resolveBooleanHelper schema l r .gte
  | .eq l r => resolveBooleanHelper schema l r .eq
  | .lt l r => resolveBooleanHelper schema l r .lt
  | .lte l r => resolveBooleanHelper schema l r .lte
  termination_by 3 * sizeOf expr + 2
  decreasing_by all_goals (simp_wf; omega)

/-- ResolveExprRule::resolve_boolean_expr_helper (same file). -/
def resolveBooleanHelper (schema : RelationSchema) (left right : OldExpression)
    (builder : OldExpression → OldExpression → OldBooleanExpr) :
    Except DBError (Option OldBooleanExpr) := do
  match ← resolveExpression schema left, ← resolveExpression schema right with
  | none, none => pure none
  | none, some r => pure (some (builder left r))
  | some l, none => pure (some (builder l right))
  | some l, some r => pure (some (builder l r))
  termination_by 3 * (sizeOf left + sizeOf right) + 1
  decreasing_by all_goals (simp_wf; omega)
end

end OldRules

/-- Both literals carry the same numeric tag (the arithmetic impls succeed on
exactly these pairs). -/
def sameNumericTag (l r : Literal) : Bool :=
  match l, r with
  | .int8 _, .int8 _ | .int16 _, .int16 _ | .int32 _, .int32 _ | .int64 _, .int64 _
  | .uint8 _, .uint8 _ | .uint16 _, .uint16 _ | .uint32 _, .uint32 _ | .uint64 _, .uint64 _
  | .float32 _, .float32 _ | .float64 _, .float64 _ => true
  | _, _ => false

/-- Membership of an operator in the arithmetic group `+ - * /`. -/
def BinaryOp.isArithmetic : BinaryOp → Bool
  | .plus | .minus | .divide | .multiply => true
  | _ => false

/-- Conditions under which Rust integer division panics (zero divisor, or the
signed `MIN / -1` overflow); these checks are active in every build mode. -/
def divPanics (op : BinaryOp) (l r : Literal) : Bool :=
  op = .divide &&
    match l, r with
    | .int8 l, .int8 r => r = 0 ∨ (l = -(2 ^ 7) ∧ r = -1)
    | .int16 l, .int16 r => r = 0 ∨ (l = -(2 ^ 15) ∧ r = -1)
    | .int32 l, .int32 r => r = 0 ∨ (l = -(2 ^ 31) ∧ r = -1)
    | .int64 l, .int64 r => r = 0 ∨ (l = -(2 ^ 63) ∧ r = -1)
    | .uint8 _, .uint8 r => r = 0
    | .uint16 _, .uint16 r => r = 0
    | .uint32 _, .uint32 r => r = 0
    | .uint64 _, .uint64 r => r = 0
    | _, _ => false

/-- Names `FunctionsRegistry::new` (`src/functions.rs`) registers with an
aggregator builder. -/
def registryAggregatorNames : List String := ["sum", "avg", "count", "max", "min"]

/-- Spec-side reading of the float-detection condition of claim C7: the text
contains a dot and the fractional part (after the first dot), once its
trailing zeros are trimmed, is non-empty. -/
def specLooksLikeFloat (t : String) : Prop :=
  '.' ∈ t.toList ∧ trimTrailingZeros (afterFirstDot t.toList) ≠ []

instance (t : String) : Decidable (specLooksLikeFloat t) := by
  unfold specLooksLikeFloat; infer_instance

/-- Unsigned integral data types. -/
def DataType.isUnsignedInt : DataType → Bool
  | .uint8 | .uint16 | .uint32 | .uint64 => true
  | _ => false

/-- Signed integral data types. -/
def DataType.isSignedInt : DataType → Bool
  | .int8 | .int16 | .int32 | .int64 => true
  | _ => false

/-- Bit width of an integral data type. -/
def DataType.bitWidth : DataType → Nat
  | .uint8 | .int8 => 8
  | .uint16 | .int16 => 16
  | .uint32 | .int32 => 32
  | .uint64 | .int64 => 64
  | _ => 0

/-- Literal constructor of an unsigned integral type. -/
def DataType.mkUnsigned : DataType → Nat → Literal
  | .uint8, v => .uint8 v
  | .uint16, v => .uint16 v
  | .uint32, v => .uint32 v
  | _, v => .uint64 v

/-- Literal constructor of a signed integral type. -/
def DataType.mkSigned : DataType → Int → Literal
  | .int8, v => .int8 v
  | .int16, v => .int16 v
  | .int32, v => .int32 v
  | _, v => .int64 v

/-- Spec-side sum: the left fold of `+` over the values, starting from
`zero(T)`, in the given order. -/
def specSum (T : DataType) (vs : List Literal) : Except EvalFail Literal := do
  vs.foldlM (fun acc v => plusImpl acc v) (← T.zero)

/-- Numeric data types (the ones `zero`, `max_value` and the arithmetic are
defined on). -/
def numericType (t : DataType) : Bool :=
  match t with
  | .uint8 | .uint16 | .uint32 | .uint64 | .int8 | .int16 | .int32 | .int64
  | .float32 | .float64 => true
  | _ => false

/-- Data types the spec comparator is defined on (total `Ord` of integers and
strings, numeric order of floats). -/
def comparableType (t : DataType) : Bool :=
  match t with
  | .uint8 | .uint16 | .uint32 | .uint64 | .int8 | .int16 | .int32 | .int64
  | .float32 | .float64 | .string => true
  | _ => false

/-- Constructor index of a literal, the first component of the global ranking
used to reason about the sort comparator. -/
def Literal.tagIdx : Literal → Nat
  | .unResolvedNumber _ => 0
  | .unResolvedString _ => 1
  | .uint8 _ => 2
  | .uint16 _ => 3
  | .uint32 _ => 4
  | .uint64 _ => 5
  | .int8 _ => 6
  | .int16 _ => 7
  | .int32 _ => 8
  | .int64 _ => 9
  | .float32 _ => 10
  | .float64 _ => 11
  | .bool _ => 12
  | .string _ => 13
  | .dateTime _ => 14
  | .null => 15

/-- Numeric payload of a literal as an exact rational (0 for non-numeric
constructors), the second component of the global ranking below. -/
def Literal.payloadRat : Literal → Rat
  | .uint8 v => (v : Rat)
  | .uint16 v => (v : Rat)
  | .uint32 v => (v : Rat)
  | .uint64 v => (v : Rat)
  | .int8 v => (v : Rat)
  | .int16 v => (v : Rat)
  | .int32 v => (v : Rat)
  | .int64 v => (v : Rat)
  | .float32 v => v
  | .float64 v => v
  | _ => 0

/-- String payload of a literal (empty for non-string constructors), the
third component of the global ranking below. -/
def Literal.payloadStr : Literal → String
  | .unResolvedNumber s => s
  | .unResolvedString s => s
  | .string s => s
  | .dateTime s => s
  | _ => ""

/-- Global total preorder on literals: constructor index first, then the
numeric payload, then the string payload.  On two literals of one comparable
tag it agrees with the non-gt outcomes of `cmpLit`; it exists so that the
stable sort's ordering theorem can reuse the library's sortedness lemma,
which requires a globally total and transitive relation. -/
def rankLe (l r : Literal) : Prop :=
  l.tagIdx < r.tagIdx ∨
    (l.tagIdx = r.tagIdx ∧
      (l.payloadRat < r.payloadRat ∨
        (l.payloadRat = r.payloadRat ∧ ¬ r.payloadStr < l.payloadStr)))

instance : DecidableRel rankLe := fun l r =>
  decidable_of_iff
    (l.tagIdx < r.tagIdx ∨
      (l.tagIdx = r.tagIdx ∧
        (l.payloadRat < r.payloadRat ∨
          (l.payloadRat = r.payloadRat ∧ ¬ r.payloadStr < l.payloadStr))))
    Iff.rfl

/-!  Theorems.  -/

/-- Emission phase of the Limit loop: once the position has reached the
offset, a numeric limit takes the next `offset + n - pos` rows. -/
theorem limit_nextLoop_emit (offset n : Nat) :
    ∀ (rows : List Row) (pos : Nat), offset ≤ pos →
      Limit.nextLoop offset (.num n) pos rows = rows.take (offset + n - pos) := by
  intro rows
  induction rows with
  | nil => intro pos _; simp [Limit.nextLoop]
  | cons r rest ih =>
      intro pos hpos
      rw [Limit.nextLoop]
      have h1 : ¬ pos < offset := by omega
      rw [if_neg h1]
      by_cases h2 : pos < offset + n
      · have : Limit.hasNext offset (.num n) pos = true := by
          simp [Limit.hasNext]; omega
        rw [if_pos this, ih (pos + 1) (by omega)]
        have : offset + n - pos = (offset + n - (pos + 1)) + 1 := by omega
        rw [this]
        rfl
      · have : Limit.hasNext offset (.num n) pos = false := by
          simp [Limit.hasNext]; omega
        simp only [this, if_false, Bool.false_eq_true]
        have : offset + n - pos = 0 := by omega
        simp [this]

/-- Emission phase of the Limit loop with `All`: everything is passed. -/
theorem limit_nextLoop_all (offset : Nat) :
    ∀ (rows : List Row) (pos : Nat), offset ≤ pos →
      Limit.nextLoop offset .all pos rows = rows := by
  intro rows
  induction rows with
  | nil => intro pos _; simp [Limit.nextLoop]
  | cons r rest ih =>
      intro pos hpos
      rw [Limit.nextLoop]
      have h1 : ¬ pos < offset := by omega
      have h2 : Limit.hasNext offset .all pos = true := by
        simp [Limit.hasNext]; omega
      rw [if_neg h1, if_pos h2, ih (pos + 1) (by omega)]

/-- Skipping phase of the Limit loop: positions below the offset drop rows. -/
theorem limit_nextLoop_skip (offset : Nat) (limit : LimitOption) :
    ∀ (rows : List Row) (pos : Nat), pos ≤ offset →
      Limit.nextLoop offset limit pos rows
        = Limit.nextLoop offset limit offset (rows.drop (offset - pos)) := by
  intro rows
  induction rows with
  | nil => intro pos _; simp [Limit.nextLoop]
  | cons r rest ih =>
      intro pos hpos
      by_cases h1 : pos < offset
      · rw [Limit.nextLoop, if_pos h1, ih (pos + 1) (by omega)]
        have : offset - pos = (offset - (pos + 1)) + 1 := by omega
        rw [this]
        rfl
      · have : pos = offset := by omega
        subst this
        simp

/-- C6: with offset `m` and numeric limit `n` the Limit operator emits exactly
`min n (child_len - m)` rows, namely the child's rows from position `m`
onward in order, when `child_len > m`; zero rows otherwise; with `All` it
emits every row from position `m` onward. -/
theorem c6_limit_rows (rows : List Row) (m n : Nat) :
    (rows.length > m →
      (Limit.run m (.num n) rows).length = min n (rows.length - m) ∧
      Limit.run m (.num n) rows = (rows.drop m).take n) ∧
    (¬ rows.length > m → Limit.run m (.num n) rows = []) ∧
    Limit.run m .all rows = rows.drop m := by
  have hnum : Limit.run m (.num n) rows = (rows.drop m).take n := by
    rw [Limit.run, limit_nextLoop_skip m (.num n) rows 0 (by omega),
      limit_nextLoop_emit m n _ m (le_refl m)]
    simp
  have hall : Limit.run m .all rows = rows.drop m := by
    rw [Limit.run, limit_nextLoop_skip m .all rows 0 (by omega),
      limit_nextLoop_all m _ m (le_refl m)]
    simp
  refine ⟨fun h => ⟨?_, hnum⟩, fun h => ?_, hall⟩
  · rw [hnum]
    simp [Nat.min_comm]
  · rw [hnum]
    have : rows.drop m = [] := by
      apply List.drop_eq_nil_of_le
      omega
    simp [this]

/-- C6 witness: offset 1, limit 2 over a three-row child emits exactly the
rows at positions 1 and 2. -/
theorem c6_limit_rows_witness :
    ([Row.mk [.int32 1], Row.mk [.int32 2], Row.mk [.int32 3]].length > 1 ∧
      Limit.run 1 (.num 2) [Row.mk [.int32 1], Row.mk [.int32 2], Row.mk [.int32 3]]
        = [Row.mk [.int32 2], Row.mk [.int32 3]]) ∧
    Limit.run 1 .all [Row.mk [.int32 1], Row.mk [.int32 2], Row.mk [.int32 3]]
      = [Row.mk [.int32 2], Row.mk [.int32 3]] := by
  refine ⟨⟨by simp, ?_⟩, ?_⟩
  · rw [(c6_limit_rows [Row.mk [.int32 1], Row.mk [.int32 2], Row.mk [.int32 3]] 1 2).1
      (by simp) |>.2]
    rfl
  · rw [(c6_limit_rows [Row.mk [.int32 1], Row.mk [.int32 2], Row.mk [.int32 3]] 1 2).2.2]
    rfl

/-- C10: the Sort operator emits exactly the rows its child produced — the
output is a permutation (equal multiset, rows unmodified) of the drained
child buffer, for every option list and every child stream. -/
theorem c10_sort_permutation (opts : List SortOption) (rows : List Row) :
    (SortOp.output opts rows).Perm rows :=
  List.perm_insertionSort _ rows

/-- Unfolded display of a resolved function expression: name followed by the
comma-joined argument displays. -/
theorem display_func (name : String) (args : List Expression) :
    Expression.display (.func name args)
      = name ++ "(" ++ String.intercalate ", " (args.map Expression.display) ++ ")" := by
  rw [Expression.display]
  congr 1
  simp

/-- C2 (code bug): `count`, `max` and `min` are registered aggregator names,
yet `HashAggregator::new_aggregators` rejects each of them with an
`unsupported agg` error; only `sum` and `avg` are constructed. -/
theorem c2_unsupported_agg_bug :
    ("count" ∈ registryAggregatorNames ∧ "max" ∈ registryAggregatorNames ∧
      "min" ∈ registryAggregatorNames) ∧
    HashAggregator.newAggregators [.func "count" [.wildcard]]
      = .error (.err (.unknown "unsupported agg: count")) ∧
    HashAggregator.newAggregators [.func "min" [.fieldRef "a" 0 .int32]]
      = .error (.err (.unknown "unsupported agg: min")) ∧
    HashAggregator.newAggregators [.func "max" [.fieldRef "a" 0 .int32]]
      = .error (.err (.unknown "unsupported agg: max")) := by
  refine ⟨by decide, ?_, ?_, ?_⟩ <;> rfl

/-- C9 counterexample: resolving a field reference whose name is not in the
contextual schema raises `Unknown("Cannot find field …")` instead of leaving
the node unresolved. -/
theorem c9_resolve_missing_counterexample :
    OldRules.resolveExpression ⟨[⟨"a", .int32⟩]⟩ (.unResolvedFieldRef "b")
      = .error (.unknown "Cannot find field b") := by
  rw [OldRules.resolveExpression]
  simp [findField]

/-- C9 amended: a field reference found in the contextual schema resolves to
`FieldRef(index, type)` of the first match; a missing name raises
`Unknown("Cannot find field …")` (it is not left unresolved). -/
theorem c9_resolve_field_ref_amended (schema : RelationSchema) (name : String) :
    (∀ idx t, findField schema.fields name = some (idx, t) →
      OldRules.resolveExpression schema (.unResolvedFieldRef name)
        = .ok (some (.fieldRef idx t))) ∧
    (findField schema.fields name = none →
      OldRules.resolveExpression schema (.unResolvedFieldRef name)
        = .error (.unknown ("Cannot find field " ++ name))) := by
  constructor
  · intro idx t h
    rw [OldRules.resolveExpression, h]
  · intro h
    rw [OldRules.resolveExpression, h]

/-- C9 amended witness: `a` resolves to index 0 with type Int32 in a
single-field schema. -/
theorem c9_resolve_field_ref_amended_witness :
    OldRules.resolveExpression ⟨[⟨"a", .int32⟩]⟩ (.unResolvedFieldRef "a")
      = .ok (some (.fieldRef 0 .int32)) :=
  (c9_resolve_field_ref_amended ⟨[⟨"a", .int32⟩]⟩ "a").1 0 .int32 (by decide)

/-- C1 (code bug): over the schema `(a Int32, g String)` with the single child
row `(5, "x")`, `sum(a)` grouped by `g` produces the output row
`[5, "x"]` — the finalized aggregator comes FIRST and the grouping value
after it — and `HashAggregator::schema` likewise lists the aggregator field
before the grouping field, while the logical `aggregator_schema` puts the
groupings first. -/
theorem c1_hash_aggregator_row_order_bug :
    HashAggregator.run [.func "sum" [.fieldRef "a" 0 .int32]] [.fieldRef "g" 1 .string]
        ⟨[⟨"a", .int32⟩, ⟨"g", .string⟩]⟩ [⟨[.int32 5, .string "x"]⟩]
      = .ok [⟨[.int32 5, .string "x"]⟩] ∧
    HashAggregator.schema [.func "sum" [.fieldRef "a" 0 .int32]] [.fieldRef "g" 1 .string]
      = ⟨[⟨"sum(a)", .int32⟩, ⟨"g", .string⟩]⟩ ∧
    aggregatorSchema [.fieldRef "g" 1 .string] [.func "sum" [.fieldRef "a" 0 .int32]]
      = ⟨[⟨"g", .string⟩, ⟨"sum(a)", .int32⟩]⟩ := by
  refine ⟨?_, ?_, ?_⟩
  · simp [HashAggregator.run, HashAggregator.setup, HashAggregator.newAggregators,
      SumAgg.new, AggState.resolveExpr, SumAgg.resolveExpr, Expression.transformBottomUp,
      resolveExpressionSpec, findField, HashAggregator.pullLoop, Interpreter.eval,
      Row.getField, HashAggregator.assocFind, HashAggregator.processAll, SumAgg.process,
      Row.concat, Row.updateField, plusImpl, wrapS, HashAggregator.tryPushAll,
      AggState.process, AggState.result, SumAgg.result, AggState.initialRow,
      SumAgg.initialRow, DataType.zero, Expression.dataType, Literal.dataType, lowercase,
      List.mapM, List.mapM.loop, Bind.bind, Except.bind, Functor.map, Except.map, pure, Except.pure]
  · simp [HashAggregator.schema, display_func, Expression.display, Expression.dataType,
      Literal.dataType]
    rfl
  · simp [aggregatorSchema, display_func, Expression.display, Expression.dataType,
      Literal.dataType]
    rfl

set_option maxHeartbeats 1600000 in
/-- Success, result tag and mismatch behavior of plus_impl. -/
theorem plusImpl_spec (l r : Literal) :
    ((∃ v, plusImpl l r = .ok v) ↔ sameNumericTag l r = true) ∧
    (∀ v, plusImpl l r = .ok v → v.dataType = l.dataType) ∧
    (sameNumericTag l r = false →
      plusImpl l r = .error (.err (.interpretingError (notImplMsg .plus l r)))) := by
  cases l <;> cases r <;> simp [plusImpl, sameNumericTag, Literal.dataType]

set_option maxHeartbeats 1600000 in
/-- Success, result tag and mismatch behavior of minus_impl. -/
theorem minusImpl_spec (l r : Literal) :
    ((∃ v, minusImpl l r = .ok v) ↔ sameNumericTag l r = true) ∧
    (∀ v, minusImpl l r = .ok v → v.dataType = l.dataType) ∧
    (sameNumericTag l r = false →
      minusImpl l r = .error (.err (.interpretingError (notImplMsg .minus l r)))) := by
  cases l <;> cases r <;> simp [minusImpl, sameNumericTag, Literal.dataType]

set_option maxHeartbeats 1600000 in
/-- Success, result tag and mismatch behavior of multiply_impl. -/
theorem multiplyImpl_spec (l r : Literal) :
    ((∃ v, multiplyImpl l r = .ok v) ↔ sameNumericTag l r = true) ∧
    (∀ v, multiplyImpl l r = .ok v → v.dataType = l.dataType) ∧
    (sameNumericTag l r = false →
      multiplyImpl l r = .error (.err (.interpretingError (notImplMsg .multiply l r)))) := by
  cases l <;> cases r <;> simp [multiplyImpl, sameNumericTag, Literal.dataType]

set_option maxHeartbeats 1600000 in
/-- Success, result tag and mismatch behavior of divide_impl, including the
integer-division panic conditions. -/
theorem divideImpl_spec (l r : Literal) :
    ((∃ v, divideImpl l r = .ok v) ↔
      (sameNumericTag l r = true ∧ divPanics .divide l r = false)) ∧
    (∀ v, divideImpl l r = .ok v → v.dataType = l.dataType) ∧
    (sameNumericTag l r = false →
      divideImpl l r = .error (.err (.interpretingError (notImplMsg .divide l r)))) := by
  cases l <;> cases r <;>
    simp [divideImpl, sameNumericTag, divPanics, Literal.dataType] <;>
    (try split_ifs) <;> simp_all

/-- C8 counterexample: `Int32(1) / Int32(0)` has two operands of the same
numeric tag, yet evaluation does not succeed — integer division by zero
aborts (a Rust panic, active in every build mode), so "succeeds exactly when
both operands carry the same numeric tag" fails at this input. -/
theorem c8_arith_same_tag_counterexample :
    sameNumericTag (.int32 1) (.int32 0) = true ∧
    Interpreter.eval (.binaryOp .divide (.lit (.int32 1)) (.lit (.int32 0))) ⟨[]⟩
      = .error (.panicked "attempt to divide by zero") :=
  ⟨rfl, rfl⟩

/-- C8 amended: evaluating an arithmetic BinaryOp whose operands evaluate to
`lv` and `rv` succeeds exactly when both carry the same numeric tag and the
operation is not an integer division that panics (zero divisor or signed
`MIN / -1`); on success the result carries the operands' tag (integer
division truncates, nothing widens); on a tag mismatch it fails with an
interpreting error whose message names the operator and both operands. -/
theorem c8_arith_same_tag_amended (op : BinaryOp) (left right : Expression) (row : Row)
    (lv rv : Literal) (hop : op.isArithmetic = true)
    (hl : Interpreter.eval left row = .ok lv)
    (hr : Interpreter.eval right row = .ok rv) :
    ((∃ v, Interpreter.eval (.binaryOp op left right) row = .ok v) ↔
      (sameNumericTag lv rv = true ∧ divPanics op lv rv = false)) ∧
    (∀ v, Interpreter.eval (.binaryOp op left right) row = .ok v →
      v.dataType = lv.dataType) ∧
    (sameNumericTag lv rv = false →
      Interpreter.eval (.binaryOp op left right) row
        = .error (.err (.interpretingError (notImplMsg op lv rv)))) := by
  cases op
  case gt => simp [BinaryOp.isArithmetic] at hop
  case gte => simp [BinaryOp.isArithmetic] at hop
  case eq => simp [BinaryOp.isArithmetic] at hop
  case lt => simp [BinaryOp.isArithmetic] at hop
  case lte => simp [BinaryOp.isArithmetic] at hop
  case and => simp [BinaryOp.isArithmetic] at hop
  case or => simp [BinaryOp.isArithmetic] at hop
  case max => simp [BinaryOp.isArithmetic] at hop
  case min => simp [BinaryOp.isArithmetic] at hop
  case plus =>
    have heval : Interpreter.eval (.binaryOp .plus left right) row = plusImpl lv rv := by
      simp [Interpreter.eval, hl, hr, Bind.bind, Except.bind]
    rw [heval]
    have hdp : divPanics .plus lv rv = false := by simp [divPanics]
    have h := plusImpl_spec lv rv
    exact ⟨by simpa [hdp] using h.1, h.2.1, h.2.2⟩
  case minus =>
    have heval : Interpreter.eval (.binaryOp .minus left right) row = minusImpl lv rv := by
      simp [Interpreter.eval, hl, hr, Bind.bind, Except.bind]
    rw [heval]
    have hdp : divPanics .minus lv rv = false := by simp [divPanics]
    have h := minusImpl_spec lv rv
    exact ⟨by simpa [hdp] using h.1, h.2.1, h.2.2⟩
  case multiply =>
    have heval : Interpreter.eval (.binaryOp .multiply left right) row
        = multiplyImpl lv rv := by
      simp [Interpreter.eval, hl, hr, Bind.bind, Except.bind]
    rw [heval]
    have hdp : divPanics .multiply lv rv = false := by simp [divPanics]
    have h := multiplyImpl_spec lv rv
    exact ⟨by simpa [hdp] using h.1, h.2.1, h.2.2⟩
  case divide =>
    have heval : Interpreter.eval (.binaryOp .divide left right) row
        = divideImpl lv rv := by
      simp [Interpreter.eval, hl, hr, Bind.bind, Except.bind]
    rw [heval]
    exact divideImpl_spec lv rv

/-- C8 amended witness: `Int32(2) + Int32(3)` succeeds, carries tag Int32,
and its success is equivalent to the same-tag non-panicking condition. -/
theorem c8_arith_same_tag_amended_witness :
    ((∃ v, Interpreter.eval (.binaryOp .plus (.lit (.int32 2)) (.lit (.int32 3))) ⟨[]⟩
        = .ok v) ↔
      (sameNumericTag (.int32 2) (.int32 3) = true ∧
        divPanics .plus (.int32 2) (.int32 3) = false)) ∧
    (∀ v, Interpreter.eval (.binaryOp .plus (.lit (.int32 2)) (.lit (.int32 3))) ⟨[]⟩
        = .ok v → v.dataType = (Literal.int32 2).dataType) ∧
    (sameNumericTag (.int32 2) (.int32 3) = false →
      Interpreter.eval (.binaryOp .plus (.lit (.int32 2)) (.lit (.int32 3))) ⟨[]⟩
        = .error (.err (.interpretingError (notImplMsg .plus (.int32 2) (.int32 3))))) :=
  c8_arith_same_tag_amended .plus (.lit (.int32 2)) (.lit (.int32 3)) ⟨[]⟩
    (.int32 2) (.int32 3) rfl rfl rfl

/-- dropWhile walks over an appended block when a failing element bounds it. -/
theorem dropWhile_append_stop (p : Char → Bool) (c : Char) (hc : p c = false) :
    ∀ (xs zs : List Char), List.dropWhile p (xs ++ c :: zs)
      = xs.dropWhile p ++ c :: zs := by
  intro xs zs
  induction xs with
  | nil => simp [List.dropWhile, hc]
  | cons x xs ih =>
      by_cases hx : p x
      · simpa [List.dropWhile, hx] using ih
      · simp [List.dropWhile, hx]

/-- dropWhile consumes a block all of whose elements satisfy the predicate
and stops at the first failing element. -/
theorem dropWhile_append_consume (p : Char → Bool) (c : Char) (hc : p c = false) :
    ∀ (xs zs : List Char), (∀ x ∈ xs, p x = true) →
      List.dropWhile p (xs ++ c :: zs) = c :: zs := by
  intro xs zs
  induction xs with
  | nil => intro _; simp [List.dropWhile, hc]
  | cons x xs ih =>
      intro h
      have hx : p x = true := h x (by simp)
      simpa [List.dropWhile, hx] using ih (fun y hy => h y (by simp [hy]))

/-- Trimming trailing zeros distributes over the split at a dot: the dot
blocks the trimming from reaching the integer part. -/
theorem trimTrailingZeros_append_dot (a b : List Char) :
    trimTrailingZeros (a ++ '.' :: b) = a ++ '.' :: trimTrailingZeros b := by
  have hdot : (('.' : Char) = '0') = False := by simp
  simp [trimTrailingZeros, List.reverse_append,
    dropWhile_append_stop (fun c => c = '0') '.' (by simp) b.reverse a.reverse,
    List.reverse_append]

/-- The fractional part of a dot-split text is the block after the dot, when
the integer part holds no dot. -/
theorem afterFirstDot_append_dot (a b : List Char) (ha : ∀ x ∈ a, x ≠ '.') :
    afterFirstDot (a ++ '.' :: b) = b := by
  rw [afterFirstDot, dropWhile_append_consume (fun x => decide (x ≠ '.')) '.' (by simp) a b
    (fun x hx => by simpa using ha x hx)]
  rfl

/-- A character list containing a dot splits as dot-free prefix, dot, rest;
the rest is `afterFirstDot`. -/
theorem dot_split (cs : List Char) (h : '.' ∈ cs) :
    ∃ a, cs = a ++ '.' :: afterFirstDot cs ∧ ∀ x ∈ a, x ≠ '.' := by
  induction cs with
  | nil => cases h
  | cons c rest ih =>
      by_cases hc : c = '.'
      · subst hc
        refine ⟨[], ?_, by simp⟩
        simp [afterFirstDot, List.dropWhile]
      · have hmem : '.' ∈ rest := by
          cases h with
          | head => exact absurd rfl hc
          | tail _ h => exact h
        obtain ⟨a, ha, hnd⟩ := ih hmem
        refine ⟨c :: a, ?_, ?_⟩
        · have : afterFirstDot (c :: rest) = afterFirstDot rest := by
            simp [afterFirstDot, List.dropWhile, hc]
          rw [this]
          simpa using ha
        · intro x hx
          cases hx with
          | head => exact hc
          | tail _ hx => exact hnd x hx

/-- The spec-side reading of "contains a dot with a nonzero fractional part
after trimming trailing zeros" coincides with the translated
`looks_like_float`. -/
theorem specLooksLikeFloat_iff (t : String) :
    specLooksLikeFloat t ↔ looksLikeFloat t = true := by
  unfold specLooksLikeFloat looksLikeFloat
  simp only [String.toList]
  by_cases h : '.' ∈ t.data
  · obtain ⟨a, hsplit, hnd⟩ := dot_split t.data h
    have hcontains : t.data.contains '.' = true := by
      simp [List.contains, List.elem_iff, h]
    have htrim : trimTrailingZeros t.data
        = a ++ '.' :: trimTrailingZeros (afterFirstDot t.data) := by
      conv_lhs => rw [hsplit]
      exact trimTrailingZeros_append_dot a _
    have hafter : afterFirstDot (trimTrailingZeros t.data)
        = trimTrailingZeros (afterFirstDot t.data) := by
      rw [htrim]
      exact afterFirstDot_append_dot a _ hnd
    have hcontains2 : (trimTrailingZeros t.data).contains '.' = true := by
      rw [htrim]
      simp [List.contains, List.elem_iff]
    simp only [hcontains, hafter, hcontains2, Bool.true_and, true_and]
    constructor
    · intro ⟨_, hne⟩
      simp [List.isEmpty_iff, hne]
    · intro hne
      refine ⟨h, ?_⟩
      intro hcontra
      simp [List.isEmpty_iff, hcontra] at hne
  · have hc : t.data.contains '.' = false := by
      simp [List.contains, List.elem_iff, h]
    simp [hc, h]

/-- C7: casting an unresolved number literal to an integral target `T` —
with a dot and a nonzero fractional part (after trimming trailing zeros) the
text parses as Float64 (a parse failure is a parse error); otherwise the text
parses at the 64-bit carrier of `T`'s signedness and keeps `T` exactly when
the value fits `T`'s width, widening to UInt64/Int64 when it does not; a text
that fails to parse even at the 64-bit carrier (overflow included) fails with
a parse error. -/
theorem c7_cast_or_maintain_precision (t : String) (T : DataType)
    (hT : T.isInteger = true) :
    (specLooksLikeFloat t →
      Literal.castOrMaintainPrecision (.unResolvedNumber t) T
        = (match parseF64Q t with
           | some q => .ok (some (.float64 q))
           | none => .error (.parserError "cannot parse float number"))) ∧
    (¬ specLooksLikeFloat t → T.isUnsignedInt = true →
      Literal.castOrMaintainPrecision (.unResolvedNumber t) T
        = (match parseU64 t with
           | some u => .ok (some
               (if u < 2 ^ T.bitWidth then T.mkUnsigned u else .uint64 u))
           | none => .error (.parserError "cannot parse int number"))) ∧
    (¬ specLooksLikeFloat t → T.isSignedInt = true →
      Literal.castOrMaintainPrecision (.unResolvedNumber t) T
        = (match parseI64 t with
           | some i => .ok (some
               (if -(2 ^ (T.bitWidth - 1)) ≤ i ∧ i < 2 ^ (T.bitWidth - 1)
                then T.mkSigned i else .int64 i))
           | none => .error (.parserError "cannot parse int number"))) := by
  refine ⟨fun hf => ?_, fun hnf hu => ?_, fun hnf hs => ?_⟩
  · have hlf : looksLikeFloat t = true := (specLooksLikeFloat_iff t).mp hf
    rw [Literal.castOrMaintainPrecision, if_pos ⟨hT, hlf⟩]
  · have hlf : looksLikeFloat t = false := by
      rcases Bool.eq_false_or_eq_true (looksLikeFloat t) with h | h
      · exact absurd ((specLooksLikeFloat_iff t).mpr h) hnf
      · exact h
    rw [Literal.castOrMaintainPrecision, if_neg (by simp [hlf])]
    cases T
    case uint8 =>
      rw [parseNumber]
      cases hp : parseU64 t with
      | none => rfl
      | some u =>
          simp only [DataType.bitWidth, DataType.mkUnsigned]
          by_cases hb : u ≤ 255
          · rw [if_pos hb, if_pos (by omega : u < 2 ^ 8)]
          · rw [if_neg hb, if_neg (by omega : ¬ u < 2 ^ 8)]
    case uint16 =>
      rw [parseNumber]
      cases hp : parseU64 t with
      | none => rfl
      | some u =>
          simp only [DataType.bitWidth, DataType.mkUnsigned]
          by_cases hb : u ≤ 65535
          · rw [if_pos hb, if_pos (by omega : u < 2 ^ 16)]
          · rw [if_neg hb, if_neg (by omega : ¬ u < 2 ^ 16)]
    case uint32 =>
      rw [parseNumber]
      cases hp : parseU64 t with
      | none => rfl
      | some u =>
          simp only [DataType.bitWidth, DataType.mkUnsigned]
          by_cases hb : u < 2 ^ 32
          · rw [if_pos (by omega : u ≤ 4294967295), if_pos hb]
          · rw [if_neg (by omega : ¬ u ≤ 4294967295), if_neg hb]
    case uint64 =>
      rw [parseNumber]
      cases hp : parseU64 t with
      | none => rfl
      | some u =>
          simp only [DataType.bitWidth, DataType.mkUnsigned]
          by_cases hb : u < 2 ^ 64 <;> simp [hb]
    all_goals simp [DataType.isUnsignedInt] at hu
  · have hlf : looksLikeFloat t = false := by
      rcases Bool.eq_false_or_eq_true (looksLikeFloat t) with h | h
      · exact absurd ((specLooksLikeFloat_iff t).mpr h) hnf
      · exact h
    rw [Literal.castOrMaintainPrecision, if_neg (by simp [hlf])]
    cases T
    case int8 =>
      rw [parseNumber]
      cases hp : parseI64 t with
      | none => rfl
      | some i =>
          simp only [DataType.bitWidth, DataType.mkSigned]
          by_cases hb : -128 ≤ i ∧ i ≤ 127
          · rw [if_pos hb, if_pos (by omega : -(2 ^ (8 - 1) : Int) ≤ i ∧ i < 2 ^ (8 - 1))]
          · rw [if_neg hb, if_neg (by omega : ¬ (-(2 ^ (8 - 1) : Int) ≤ i ∧ i < 2 ^ (8 - 1)))]
    case int16 =>
      rw [parseNumber]
      cases hp : parseI64 t with
      | none => rfl
      | some i =>
          simp only [DataType.bitWidth, DataType.mkSigned]
          by_cases hb : -32768 ≤ i ∧ i ≤ 32767
          · rw [if_pos hb, if_pos (by omega : -(2 ^ (16 - 1) : Int) ≤ i ∧ i < 2 ^ (16 - 1))]
          · rw [if_neg hb,
              if_neg (by omega : ¬ (-(2 ^ (16 - 1) : Int) ≤ i ∧ i < 2 ^ (16 - 1)))]
    case int32 =>
      rw [parseNumber]
      cases hp : parseI64 t with
      | none => rfl
      | some i =>
          simp only [DataType.bitWidth, DataType.mkSigned]
          by_cases hb : -2147483648 ≤ i ∧ i ≤ 2147483647
          · rw [if_pos hb, if_pos (by omega : -(2 ^ (32 - 1) : Int) ≤ i ∧ i < 2 ^ (32 - 1))]
          · rw [if_neg hb,
              if_neg (by omega : ¬ (-(2 ^ (32 - 1) : Int) ≤ i ∧ i < 2 ^ (32 - 1)))]
    case int64 =>
      rw [parseNumber]
      cases hp : parseI64 t with
      | none => rfl
      | some i =>
          simp only [DataType.bitWidth, DataType.mkSigned]
          by_cases hb : -(2 ^ (64 - 1) : Int) ≤ i ∧ i < 2 ^ (64 - 1) <;> simp [hb]
    all_goals simp [DataType.isSignedInt] at hs

/-- C7 witness: `"300"` cast to UInt8 does not look like a float, parses as
300 at the `u64` carrier, exceeds the 8-bit width and is widened to UInt64. -/
theorem c7_cast_or_maintain_precision_witness :
    Literal.castOrMaintainPrecision (.unResolvedNumber "300") .uint8
      = .ok (some (.uint64 300)) := by
  have h := (c7_cast_or_maintain_precision "300" .uint8 rfl).2.1 (by decide) rfl
  rw [h]
  rfl

/-- Looking a name up in a schema extended with a fresh field finds the
appended field at the original length. -/
theorem findField_append_absent (fields : List FieldInfo) (nm : String) (t : DataType)
    (h : ∀ fi ∈ fields, fi.name ≠ nm) :
    findField (fields ++ [⟨nm, t⟩]) nm = some (fields.length, t) := by
  induction fields with
  | nil => simp [findField]
  | cons fi rest ih =>
      have hfi : fi.name ≠ nm := h fi (by simp)
      rw [List.cons_append, findField, if_neg (by simpa using hfi),
        ih (fun x hx => h x (by simp [hx]))]
      rfl

/-- zero is defined on every numeric type and carries that type. -/
theorem zero_ok (T : DataType) (hT : numericType T = true) :
    ∃ z, T.zero = .ok z ∧ z.dataType = T := by
  cases T <;> simp_all [numericType, DataType.zero, Literal.dataType]

/-- Two literals of one numeric data type share a numeric tag. -/
theorem sameNumericTag_of_dataType (l r : Literal) (T : DataType)
    (hT : numericType T = true) (hl : l.dataType = T) (hr : r.dataType = T) :
    sameNumericTag l r = true := by
  subst hl
  cases l <;> cases r <;> simp_all [numericType, Literal.dataType, sameNumericTag]

/-- plus_impl is commutative on operands of the same numeric tag. -/
theorem plusImpl_comm (l r : Literal) (h : sameNumericTag l r = true) :
    plusImpl l r = plusImpl r l := by
  cases l <;> cases r <;> simp_all [sameNumericTag, plusImpl, wrapU, wrapS] <;>
    first
      | omega
      | rw [Nat.add_comm]
      | rw [Int.add_comm]
      | rw [Rat.add_comm]

/-- plus_impl succeeds on a same-tag pair and keeps the tag. -/
theorem plusImpl_closed (l r : Literal) (h : sameNumericTag l r = true) :
    ∃ w, plusImpl l r = .ok w ∧ w.dataType = l.dataType := by
  obtain ⟨w, hw⟩ := (plusImpl_spec l r).1.mpr h
  exact ⟨w, hw, (plusImpl_spec l r).2.1 w hw⟩

/-- Evaluation over a combined `input ⊕ scratch` row equals evaluation over
the input row alone when every field index the interpreter reads lies inside
the input row. -/
theorem eval_concat_of_refsBelow (r b : Row) :
    ∀ (e : Expression), e.refsBelow r.fields.length = true →
      Interpreter.eval e (Row.concat r b) = Interpreter.eval e r
  | .lit _, _ => rfl
  | .unResolvedFieldRef _, _ => rfl
  | .fieldRef name index t, h => by
      have hidx : index < r.fields.length := by
        simpa [Expression.refsBelow] using h
      rw [Interpreter.eval, Interpreter.eval, Row.getField, Row.getField]
      have hget : (Row.concat r b).fields.get? index = r.fields.get? index := by
        simp only [Row.concat]
        rw [List.get?_eq_getElem?, List.get?_eq_getElem?, List.getElem?_append,
          if_pos hidx]
      rw [hget]
  | .alias a c, h => by
      have hc : c.refsBelow r.fields.length = true := by
        simpa [Expression.refsBelow] using h
      simp [Interpreter.eval, eval_concat_of_refsBelow r b c hc]
  | .binaryOp op l rr, h => by
      have hlr : l.refsBelow r.fields.length = true ∧ rr.refsBelow r.fields.length = true := by
        simpa [Expression.refsBelow, Bool.and_eq_true] using h
      simp [Interpreter.eval, eval_concat_of_refsBelow r b l hlr.1,
        eval_concat_of_refsBelow r b rr hlr.2]
  | .unaryOp op i, h => by
      have hi : i.refsBelow r.fields.length = true := by
        simpa [Expression.refsBelow] using h
      cases op <;> simp [Interpreter.eval, eval_concat_of_refsBelow r b i hi]
  | .unResolvedFunction _ _, _ => rfl
  | .func _ _, _ => rfl
  | .wildcard, _ => rfl

/-- Resolution of the sum buffer expression: with the argument expression
already resolved and no schema field named `sum_agg_sum`, the unresolved
scratch reference resolves to the appended position. -/
theorem sumAgg_resolve (e : Expression) (schema : RelationSchema)
    (hname : ∀ fi ∈ schema.fields, fi.name ≠ "sum_agg_sum")
    (hres : e.transformBottomUp (resolveExpressionSpec
      ⟨schema.fields ++ [⟨"sum_agg_sum", .float64⟩]⟩) = .ok none) :
    (SumAgg.new e).resolveExpr schema
      = .ok ⟨.binaryOp .plus e
          (.fieldRef "sum_agg_sum" schema.fields.length .float64), e.dataType⟩ := by
  have hfind : findField (schema.fields ++ [⟨"sum_agg_sum", .float64⟩]) "sum_agg_sum"
      = some (schema.fields.length, .float64) :=
    findField_append_absent _ _ _ hname
  simp [SumAgg.resolveExpr, SumAgg.new, Expression.transformBottomUp, hres,
    resolveExpressionSpec, hfind, Bind.bind, Except.bind, Except.pure, pure]

/-- Processing one input row through a resolved sum aggregator adds the
evaluated argument to the single scratch cell (argument on the left, as the
source builds `arg + sum_agg_sum`). -/
theorem sumAgg_process_step (e : Expression) (T : DataType) (n : Nat) (row : Row)
    (acc : Literal) (hrb : e.refsBelow n = true) (hlen : row.fields.length = n) :
    AggState.process
        (.sum ⟨.binaryOp .plus e (.fieldRef "sum_agg_sum" n .float64), T⟩) row ⟨[acc]⟩
      = (do
          let v ← Interpreter.eval e row
          let w ← plusImpl v acc
          pure (Row.mk [w])) := by
  rw [AggState.process, SumAgg.process]
  have h1 : Interpreter.eval e (Row.concat row ⟨[acc]⟩) = Interpreter.eval e row :=
    eval_concat_of_refsBelow row ⟨[acc]⟩ e (by rw [hlen]; exact hrb)
  have h2 : (Row.concat row ⟨[acc]⟩).getField n = .ok acc := by
    have hget : (row.fields ++ [acc])[n]? = some acc := by
      rw [← hlen]
      exact List.getElem?_concat_length row.fields acc
    simp [Row.getField, Row.concat, hget]
  cases hv : Interpreter.eval e row with
  | error err => simp [Interpreter.eval, h1, hv, Bind.bind, Except.bind]
  | ok v =>
      cases hw : plusImpl v acc with
      | error err =>
          simp [Interpreter.eval, h1, h2, hv, hw, Bind.bind, Except.bind]
      | ok w =>
          simp [Interpreter.eval, h1, h2, hv, hw, Bind.bind, Except.bind,
            Row.updateField, Except.pure, pure]

/-- processAll over a single aggregator and a single scratch row is that
aggregator's step. -/
theorem processAll_single (a : AggState) (row : Row) (buf : Row) :
    HashAggregator.processAll [a] row [buf] = (do
      let nb ← a.process row buf
      pure [nb]) := by
  cases h : a.process row buf <;>
    simp [HashAggregator.processAll, List.zip, h, List.mapM, List.mapM.loop,
      Bind.bind, Except.bind, Except.pure, pure]

/-- Pull loop of the single-group sum: starting from one empty-key buffer
entry, draining the child folds the evaluated argument into the scratch cell,
newest value on the left. -/
theorem c3_pullLoop (e : Expression) (T : DataType) (n : Nat)
    (hrb : e.refsBelow n = true) :
    ∀ (rows : List Row) (acc : Literal), (∀ r ∈ rows, r.fields.length = n) →
      HashAggregator.pullLoop
          [.sum ⟨.binaryOp .plus e (.fieldRef "sum_agg_sum" n .float64), T⟩] []
          rows [([], [⟨[acc]⟩])]
        = (do
            let w ← rows.foldlM (fun a r => do
              let v ← Interpreter.eval e r
              plusImpl v a) acc
            pure [([], [Row.mk [w]])])
  | [], acc, _ => by
      simp [HashAggregator.pullLoop, Bind.bind, Except.bind, Except.pure, pure]
  | row :: rest, acc, h => by
      rw [HashAggregator.pullLoop]
      have hkey : List.mapM (fun g => Interpreter.eval g row) ([] : List Expression)
          = .ok [] := rfl
      have hfind : HashAggregator.assocFind [([], [Row.mk [acc]])] [] = some [⟨[acc]⟩] := by
        simp [HashAggregator.assocFind]
      rw [hkey]
      simp only [Bind.bind, Except.bind, hfind]
      rw [processAll_single,
        sumAgg_process_step e T n row acc hrb (h row (by simp))]
      cases hv : Interpreter.eval e row with
      | error err =>
          simp [Bind.bind, Except.bind, List.foldlM, hv]
      | ok v =>
          cases hw : plusImpl v acc with
          | error err =>
              simp [Bind.bind, Except.bind, List.foldlM, hv, hw, Except.pure, pure]
          | ok w =>
              have hset : HashAggregator.assocSet [([], [Row.mk [acc]])] [] [⟨[w]⟩]
                  = [([], [Row.mk [w]])] := by
                simp [HashAggregator.assocSet]
              simp only [Bind.bind, Except.bind, hv, hw, Except.pure, pure, hset,
                List.foldlM]
              exact c3_pullLoop e T n hrb rest w (fun r hr => h r (by simp [hr]))

/-- The code's fold (argument on the left of each `+`) coincides with the
spec's left fold (accumulator on the left) because same-tag plus is
commutative; the accumulator keeps the numeric tag throughout. -/
theorem sum_fold_comm (e : Expression) (T : DataType) (hT : numericType T = true) :
    ∀ (rows : List Row) (vs : List Literal) (acc : Literal),
      rows.mapM (fun r => Interpreter.eval e r) = .ok vs →
      (∀ v ∈ vs, v.dataType = T) → acc.dataType = T →
      rows.foldlM (fun a r => do
          let v ← Interpreter.eval e r
          plusImpl v a) acc
        = vs.foldlM (fun a v => plusImpl a v) acc := by
  intro rows
  induction rows with
  | nil =>
      intro vs acc hm _ _
      have hvs : vs = [] := by
        simp only [List.mapM_nil, pure, Except.pure] at hm
        exact (Except.ok.injEq _ _ ▸ congrArg id hm :
          ([] : List Literal) = vs).symm
      subst hvs
      simp [List.foldlM]
  | cons row rest ih =>
      intro vs acc hm htags hacc
      rw [List.mapM_cons] at hm
      cases hv : Interpreter.eval e row with
      | error err =>
          rw [hv] at hm
          simp only [Bind.bind, Except.bind] at hm
          exact absurd hm (by simp)
      | ok v =>
          rw [hv] at hm
          simp only [Bind.bind, Except.bind] at hm
          cases hrest : rest.mapM (fun r => Interpreter.eval e r) with
          | error err =>
              rw [hrest] at hm
              exact absurd hm (by simp)
          | ok vtl =>
              rw [hrest] at hm
              have hvs : vs = v :: vtl := by
                simp only [pure, Except.pure, Except.ok.injEq] at hm
                exact hm.symm
              subst hvs
              have hvT : v.dataType = T := htags v (by simp)
              have hsame : sameNumericTag v acc = true :=
                sameNumericTag_of_dataType v acc T hT hvT hacc
              have hsame2 : sameNumericTag acc v = true :=
                sameNumericTag_of_dataType acc v T hT hacc hvT
              obtain ⟨w, hw, hwT⟩ := plusImpl_closed acc v hsame2
              rw [List.foldlM_cons, List.foldlM_cons]
              simp only [hv, Bind.bind, Except.bind]
              rw [plusImpl_comm v acc hsame, hw]
              exact ih vtl w hrest (fun x hx => htags x (by simp [hx]))
                (by rw [hwT, hacc])

/-- The spec fold over same-tag values succeeds and keeps the tag. -/
theorem specFold_ok (T : DataType) (hT : numericType T = true) :
    ∀ (vs : List Literal) (acc : Literal), (∀ v ∈ vs, v.dataType = T) →
      acc.dataType = T →
      ∃ w, vs.foldlM (fun a v => plusImpl a v) acc = .ok w ∧ w.dataType = T := by
  intro vs
  induction vs with
  | nil =>
      intro acc _ hacc
      exact ⟨acc, rfl, hacc⟩
  | cons v vtl ih =>
      intro acc htags hacc
      have hvT : v.dataType = T := htags v (by simp)
      have hsame : sameNumericTag acc v = true :=
        sameNumericTag_of_dataType acc v T hT hacc hvT
      obtain ⟨w1, hw1, hw1T⟩ := plusImpl_closed acc v hsame
      obtain ⟨w, hw, hwT⟩ := ih w1 (fun x hx => htags x (by simp [hx]))
        (by rw [hw1T, hacc])
      refine ⟨w, ?_, hwT⟩
      rw [List.foldlM_cons]
      simp only [Bind.bind, Except.bind, hw1]
      exact hw

/-- Draining the push iterator of a single sum aggregator with one buffer
entry emits one row: finalized value first, then the grouping key values. -/
theorem tryPushAll_single_sum (s : SumAgg) (key : List Literal) (w : Literal) :
    HashAggregator.tryPushAll [.sum s] [(key, [⟨[w]⟩])] = .ok [⟨w :: key⟩] := by
  simp [HashAggregator.tryPushAll, AggState.result, SumAgg.result, Row.getField,
    List.zip, List.mapM, List.mapM.loop, Bind.bind, Except.bind, Except.pure, pure]

/-- Setup of a `sum(e)` aggregator list: the one SumAgg is built and its
buffer expression resolved against the child schema plus the scratch field. -/
theorem c3_setup (e : Expression) (schema : RelationSchema)
    (hname : ∀ fi ∈ schema.fields, fi.name ≠ "sum_agg_sum")
    (hres : e.transformBottomUp (resolveExpressionSpec
      ⟨schema.fields ++ [⟨"sum_agg_sum", .float64⟩]⟩) = .ok none) :
    HashAggregator.setup [.func "sum" [e]] schema
      = .ok [.sum ⟨.binaryOp .plus e
          (.fieldRef "sum_agg_sum" schema.fields.length .float64), e.dataType⟩] := by
  have hlower : lowercase "sum" = "sum" := rfl
  simp [HashAggregator.setup, HashAggregator.newAggregators, hlower, List.mapM,
    List.mapM.loop, Bind.bind, Except.bind, Except.pure, pure, AggState.resolveExpr,
    sumAgg_resolve e schema hname hres]

/-- C3: for the single-group (no groupings) sum aggregation over an argument
expression `e` of numeric type `T`, once the child is exhausted the
HashAggregator emits exactly one row holding the left fold of `+` over the
values of `e` on the child's rows, starting from `zero(T)`, taken in
child-iteration order. -/
theorem c3_sum_fold (e : Expression) (T : DataType) (schema : RelationSchema)
    (rows : List Row) (vs : List Literal)
    (hT : numericType T = true)
    (hty : e.dataType = T)
    (hname : ∀ fi ∈ schema.fields, fi.name ≠ "sum_agg_sum")
    (hres : e.transformBottomUp (resolveExpressionSpec
      ⟨schema.fields ++ [⟨"sum_agg_sum", .float64⟩]⟩) = .ok none)
    (hrb : e.refsBelow schema.fields.length = true)
    (hlen : ∀ r ∈ rows, r.fields.length = schema.fields.length)
    (hvs : rows.mapM (fun r => Interpreter.eval e r) = .ok vs)
    (htags : ∀ v ∈ vs, v.dataType = T)
    (hne : rows ≠ []) :
    ∃ w, specSum T vs = .ok w ∧
      HashAggregator.run [.func "sum" [e]] [] schema rows = .ok [⟨[w]⟩] := by
  obtain ⟨z, hz, hzT⟩ := zero_ok T hT
  obtain ⟨w, hw, hwT⟩ := specFold_ok T hT vs z htags hzT
  refine ⟨w, ?_, ?_⟩
  · simp only [specSum, hz, Bind.bind, Except.bind]
    exact hw
  · have hsetup := c3_setup e schema hname hres
    rw [hty] at hsetup
    obtain ⟨r0, rest, rfl⟩ : ∃ r0 rest, rows = r0 :: rest := by
      cases rows with
      | nil => exact absurd rfl hne
      | cons a l => exact ⟨a, l, rfl⟩
    have hfold : (r0 :: rest).foldlM (fun a r => do
        let v ← Interpreter.eval e r
        plusImpl v a) z = .ok w := by
      rw [sum_fold_comm e T hT (r0 :: rest) vs z hvs htags hzT]
      exact hw
    have hstep := sumAgg_process_step e T schema.fields.length r0 z hrb
      (hlen r0 (by simp))
    have hstart : HashAggregator.pullLoop
        [.sum ⟨.binaryOp .plus e
          (.fieldRef "sum_agg_sum" schema.fields.length .float64), T⟩] []
        (r0 :: rest) []
      = HashAggregator.pullLoop
          [.sum ⟨.binaryOp .plus e
            (.fieldRef "sum_agg_sum" schema.fields.length .float64), T⟩] []
          (r0 :: rest) [([], [⟨[z]⟩])] := by
      conv_lhs => rw [HashAggregator.pullLoop]
      conv_rhs => rw [HashAggregator.pullLoop]
      simp only [List.mapM_nil, pure, Except.pure, Bind.bind, Except.bind,
        HashAggregator.assocFind, HashAggregator.assocSet, List.find?_nil,
        Option.map_none, List.find?_cons_of_pos, decide_True, Option.map_some,
        AggState.initialRow, SumAgg.initialRow, hz, List.mapM_cons,
        List.mapM_nil, List.nil_append]
      simp [HashAggregator.assocFind, hz, AggState.initialRow, SumAgg.initialRow,
        Bind.bind, Except.bind, Except.pure, pure, List.mapM, List.mapM.loop,
        HashAggregator.assocSet]
    rw [HashAggregator.run]
    simp only [hsetup, Bind.bind, Except.bind]
    rw [hstart, c3_pullLoop e T schema.fields.length hrb (r0 :: rest) z hlen, hfold]
    simp only [Bind.bind, Except.bind, Except.pure, pure]
    have := tryPushAll_single_sum
      ⟨.binaryOp .plus e (.fieldRef "sum_agg_sum" schema.fields.length .float64), T⟩
      [] w
    simpa using this

/-- C3 witness: summing an Int32 column over the two child rows 2 and 3
produces the single row holding the left fold `(0 + 2) + 3 = 5`. -/
theorem c3_sum_fold_witness :
    ∃ w, specSum .int32 [.int32 2, .int32 3] = .ok w ∧
      HashAggregator.run [.func "sum" [.fieldRef "a" 0 .int32]] []
          ⟨[⟨"a", .int32⟩]⟩ [⟨[.int32 2]⟩, ⟨[.int32 3]⟩]
        = .ok [⟨[w]⟩] :=
  c3_sum_fold (.fieldRef "a" 0 .int32) .int32 ⟨[⟨"a", .int32⟩]⟩
    [⟨[.int32 2]⟩, ⟨[.int32 3]⟩] [.int32 2, .int32 3]
    rfl rfl (by decide)
    (by simp [Expression.transformBottomUp, resolveExpressionSpec])
    (by decide) (by decide) rfl (by decide) (by simp)

/-- The global ranking of literals is total. -/
theorem rankLe_total (l r : Literal) : rankLe l r ∨ rankLe r l := by
  unfold rankLe
  rcases Nat.lt_trichotomy l.tagIdx r.tagIdx with h | h | h
  · exact Or.inl (Or.inl h)
  · rcases lt_trichotomy l.payloadRat r.payloadRat with h2 | h2 | h2
    · exact Or.inl (Or.inr ⟨h, Or.inl h2⟩)
    · by_cases h3 : r.payloadStr < l.payloadStr
      · exact Or.inr (Or.inr ⟨h.symm, Or.inr ⟨h2.symm, fun hc => lt_asymm h3 hc⟩⟩)
      · exact Or.inl (Or.inr ⟨h, Or.inr ⟨h2, h3⟩⟩)
    · exact Or.inr (Or.inr ⟨h.symm, Or.inl h2⟩)
  · exact Or.inr (Or.inl h)

/-- The global ranking of literals is transitive. -/
theorem rankLe_trans (a b c : Literal) (h1 : rankLe a b) (h2 : rankLe b c) :
    rankLe a c := by
  unfold rankLe at h1 h2 ⊢
  rcases h1 with h1 | ⟨e1, h1⟩
  · rcases h2 with h2 | ⟨e2, _⟩
    · exact Or.inl (Nat.lt_trans h1 h2)
    · exact Or.inl (e2 ▸ h1)
  · rcases h2 with h2 | ⟨e2, h2⟩
    · exact Or.inl (e1 ▸ h2)
    · refine Or.inr ⟨e1.trans e2, ?_⟩
      rcases h1 with h1 | ⟨q1, h1⟩
      · rcases h2 with h2 | ⟨q2, _⟩
        · exact Or.inl (lt_trans h1 h2)
        · exact Or.inl (q2 ▸ h1)
      · rcases h2 with h2 | ⟨q2, h2⟩
        · exact Or.inl (q1 ▸ h2)
        · refine Or.inr ⟨q1.trans q2, fun hc => ?_⟩
          rcases lt_trichotomy a.payloadStr b.payloadStr with hs | hs | hs
          · exact h2 (lt_trans hc hs)
          · exact h2 (hs ▸ hc)
          · exact h1 hs

/-- The three-way comparison returns `gt` exactly when the right argument is
strictly below the left one. -/
theorem cmpVia_gt_iff {α : Type} [LT α]
    [DecidableRel ((· < ·) : α → α → Prop)] (x y : α) :
    cmpVia x y = Ordering.gt ↔ (¬ x < y ∧ y < x) := by
  unfold cmpVia
  split_ifs with h1 h2
  · simp [h1]
  · simp [h1, h2]
  · simp [h1, h2]

/-- On two literals of one comparable data type the sort comparator is
defined, and its non-gt outcomes coincide with the global ranking. -/
theorem cmpLit_defined_agrees (l r : Literal)
    (hc : comparableType l.dataType = true) (h : r.dataType = l.dataType) :
    (∃ o, cmpLit l r = some o) ∧
      (cmpLit l r ≠ some Ordering.gt ↔ rankLe l r) := by
  cases l <;> cases r <;>
    first
      | (simp only [Literal.dataType, comparableType] at hc
         exact Bool.noConfusion hc)
      | (simp only [Literal.dataType] at h
         exact DataType.noConfusion h)
      | (rename_i x y
         refine ⟨⟨_, rfl⟩, ?_⟩
         simp only [cmpLit, ne_eq, Option.some.injEq]
         rw [cmpVia_gt_iff x y]
         simp only [rankLe, Literal.tagIdx, Literal.payloadRat, Literal.payloadStr,
           lt_self_iff_false, false_or, eq_self_iff_true, true_and, not_false_iff,
           and_true, Int.cast_lt, Int.cast_inj, Nat.cast_lt, Nat.cast_inj]
         constructor
         · intro hn
           first
             | (rcases lt_trichotomy x y with h1 | h1 | h1
                · exact Or.inl h1
                · exact Or.inr h1
                · exact absurd ⟨lt_asymm h1, h1⟩ hn)
             | (intro hyx; exact hn ⟨lt_asymm hyx, hyx⟩)
         · first
             | (rintro (h1 | h1) ⟨hnlt, hyx⟩
                · exact hnlt h1
                · cases h1; exact lt_irrefl _ hyx)
             | (rintro hny ⟨hnlt, hyx⟩; exact hny hyx))

/-- Ordered insertion only inspects the relation between the inserted element
and the members of the list it is inserted into. -/
theorem orderedInsert_congr {α : Type} (r s : α → α → Prop)
    [DecidableRel r] [DecidableRel s] (a : α) :
    ∀ (l : List α), (∀ b ∈ l, (r a b ↔ s a b)) →
      l.orderedInsert r a = l.orderedInsert s a := by
  intro l
  induction l with
  | nil => intro _; rfl
  | cons b bl ih =>
      intro hag
      have hb : r a b ↔ s a b := hag b (List.mem_cons_self b bl)
      by_cases h : r a b
      · simp only [List.orderedInsert, if_pos h, if_pos (hb.mp h)]
      · simp only [List.orderedInsert, if_neg h, if_neg (fun hs2 => h (hb.mpr hs2))]
        rw [ih (fun c hc => hag c (List.mem_cons_of_mem b hc))]

/-- Insertion sort only inspects the relation between members of the list. -/
theorem insertionSort_congr {α : Type} (r s : α → α → Prop)
    [DecidableRel r] [DecidableRel s] :
    ∀ (l : List α), (∀ a ∈ l, ∀ b ∈ l, (r a b ↔ s a b)) →
      l.insertionSort r = l.insertionSort s := by
  intro l
  induction l with
  | nil => intro _; rfl
  | cons a tl ih =>
      intro hag
      have htl : tl.insertionSort r = tl.insertionSort s :=
        ih (fun x hx y hy =>
          hag x (List.mem_cons_of_mem a hx) y (List.mem_cons_of_mem a hy))
      simp only [List.insertionSort]
      rw [htl]
      exact orderedInsert_congr r s a (tl.insertionSort s) (fun b hb =>
        hag a (List.mem_cons_self a tl) b
          (List.mem_cons_of_mem a ((List.mem_insertionSort s).mp hb)))

/-- Under a single ascending option whose expression evaluates on both rows,
the sort's boolean relation holds exactly when the comparator does not return
`Greater`. -/
theorem sortLe_single_asc (e : Expression) (a b : Row) (la lb : Literal)
    (o2 : Ordering) (ha : Interpreter.eval e a = Except.ok la)
    (hb : Interpreter.eval e b = Except.ok lb) (ho : cmpLit la lb = some o2) :
    (SortOp.sortLe [⟨e, true⟩] a b = true ↔ cmpLit la lb ≠ some Ordering.gt) := by
  rw [ho]
  by_cases heq : o2 = Ordering.eq
  · subst heq
    simp [SortOp.sortLe, SortOp.rowCmp, SortOp.optionCmp, ha, hb, ho]
  · simp [SortOp.sortLe, SortOp.rowCmp, SortOp.optionCmp, ha, hb, ho, heq]

/-- C5: under a single ascending sort option on `e`, when `e` evaluates on
every buffered row to a value `k r` of one comparable type `t`, the emitted
sequence is non-decreasing under the comparator (no later row compares
strictly below an earlier one); a descending option compares with the
operands flipped; with several options the comparator is lexicographic (an
equal head option defers to the remaining options, a non-equal head option
decides); and the sort is stable (a comparator-equal pair keeps its child
order). -/
theorem c5_sort_ordering (e : Expression) (o : SortOption) (os : List SortOption)
    (rows : List Row) (k : Row → Literal) (t : DataType)
    (hcomp : comparableType t = true)
    (hk : ∀ r ∈ rows, Interpreter.eval e r = .ok (k r) ∧ (k r).dataType = t) :
    (SortOp.output [⟨e, true⟩] rows).Pairwise
        (fun a b => cmpLit (k a) (k b) ≠ some Ordering.gt)
    ∧ (∀ l r, SortOp.optionCmp ⟨e, false⟩ l r = SortOp.optionCmp ⟨e, true⟩ r l)
    ∧ (∀ l r,
        (SortOp.optionCmp o l r = some Ordering.eq →
          SortOp.rowCmp (o :: os) l r = SortOp.rowCmp os l r)
        ∧ ∀ v, SortOp.optionCmp o l r = some v → v ≠ Ordering.eq →
            SortOp.rowCmp (o :: os) l r = some v)
    ∧ (∀ (opts : List SortOption) (a b : Row),
        SortOp.rowCmp opts a b = some Ordering.eq →
          ([a, b] : List Row).Sublist rows →
          ([a, b] : List Row).Sublist (SortOp.output opts rows)) := by
  refine ⟨?_, ?_, ?_, ?_⟩
  · have hagree : ∀ a ∈ rows, ∀ b ∈ rows,
        ((SortOp.sortLe [⟨e, true⟩] a b = true) ↔ rankLe (k a) (k b)) := by
      intro a ha b hb
      obtain ⟨hae, hat⟩ := hk a ha
      obtain ⟨hbe, hbt⟩ := hk b hb
      have hc : comparableType (k a).dataType = true := by rw [hat]; exact hcomp
      have hdt : (k b).dataType = (k a).dataType := by rw [hat, hbt]
      obtain ⟨⟨oo, hoo⟩, hiff⟩ := cmpLit_defined_agrees (k a) (k b) hc hdt
      exact (sortLe_single_asc e a b (k a) (k b) oo hae hbe hoo).trans hiff
    have hcong : SortOp.output [⟨e, true⟩] rows
        = rows.insertionSort (fun a b : Row => rankLe (k a) (k b)) := by
      unfold SortOp.output
      exact insertionSort_congr
        (fun a b : Row => SortOp.sortLe [⟨e, true⟩] a b = true)
        (fun a b : Row => rankLe (k a) (k b)) rows hagree
    rw [hcong]
    haveI ht2 : IsTrans Row (fun a b : Row => rankLe (k a) (k b)) :=
      ⟨fun a b c h1 h2 => rankLe_trans _ _ _ h1 h2⟩
    haveI ht1 : IsTotal Row (fun a b : Row => rankLe (k a) (k b)) :=
      ⟨fun a b => rankLe_total _ _⟩
    have hs := List.sorted_insertionSort
      (fun a b : Row => rankLe (k a) (k b)) rows
    refine List.Pairwise.imp_of_mem ?_ hs
    intro a b ha hb hr
    have ha2 := (List.mem_insertionSort
      (fun a b : Row => rankLe (k a) (k b))).mp ha
    have hb2 := (List.mem_insertionSort
      (fun a b : Row => rankLe (k a) (k b))).mp hb
    obtain ⟨hae, hat⟩ := hk a ha2
    obtain ⟨hbe, hbt⟩ := hk b hb2
    have hc : comparableType (k a).dataType = true := by rw [hat]; exact hcomp
    have hdt : (k b).dataType = (k a).dataType := by rw [hat, hbt]
    exact (cmpLit_defined_agrees (k a) (k b) hc hdt).2.mpr hr
  · intro l r
    rcases h1 : Interpreter.eval e l with f1 | v1 <;>
      rcases h2 : Interpreter.eval e r with f2 | v2 <;>
        simp [SortOp.optionCmp, h1, h2]
  · intro l r
    constructor
    · intro h
      simp [SortOp.rowCmp, h]
    · intro v hv hne
      simp [SortOp.rowCmp, hv, hne]
  · intro opts a b heq hsub
    have hab : SortOp.sortLe opts a b = true := by
      simp [SortOp.sortLe, heq]
    unfold SortOp.output
    exact List.pair_sublist_insertionSort hab hsub

/-- C5 witness: sorting the two Int32 rows 2, 1 ascending on the field
yields a non-decreasing sequence; the descending, lexicographic and
stability conjuncts instantiated at the same option and rows. -/
theorem c5_sort_ordering_witness :
    comparableType DataType.int32 = true ∧
    (∀ r ∈ ([⟨[.int32 2]⟩, ⟨[.int32 1]⟩] : List Row),
        Interpreter.eval (.fieldRef "a" 0 .int32) r
            = .ok (r.fields.getD 0 Literal.null) ∧
          (r.fields.getD 0 Literal.null).dataType = .int32) ∧
    ((SortOp.output [⟨.fieldRef "a" 0 .int32, true⟩]
        [⟨[.int32 2]⟩, ⟨[.int32 1]⟩]).Pairwise
        (fun a b => cmpLit (a.fields.getD 0 Literal.null)
          (b.fields.getD 0 Literal.null) ≠ some Ordering.gt)
      ∧ (∀ l r, SortOp.optionCmp ⟨.fieldRef "a" 0 .int32, false⟩ l r
          = SortOp.optionCmp ⟨.fieldRef "a" 0 .int32, true⟩ r l)
      ∧ (∀ l r,
          (SortOp.optionCmp ⟨.fieldRef "a" 0 .int32, true⟩ l r
              = some Ordering.eq →
            SortOp.rowCmp [⟨.fieldRef "a" 0 .int32, true⟩] l r
              = SortOp.rowCmp [] l r)
          ∧ ∀ v, SortOp.optionCmp ⟨.fieldRef "a" 0 .int32, true⟩ l r = some v →
              v ≠ Ordering.eq →
              SortOp.rowCmp [⟨.fieldRef "a" 0 .int32, true⟩] l r = some v)
      ∧ (∀ (opts : List SortOption) (a b : Row),
          SortOp.rowCmp opts a b = some Ordering.eq →
            ([a, b] : List Row).Sublist [⟨[.int32 2]⟩, ⟨[.int32 1]⟩] →
            ([a, b] : List Row).Sublist
              (SortOp.output opts [⟨[.int32 2]⟩, ⟨[.int32 1]⟩]))) :=
  ⟨by decide,
    by
      intro r hr
      simp only [List.mem_cons, List.not_mem_nil, or_false] at hr
      rcases hr with rfl | rfl <;> exact ⟨rfl, rfl⟩,
    c5_sort_ordering (.fieldRef "a" 0 .int32) ⟨.fieldRef "a" 0 .int32, true⟩ []
      [⟨[.int32 2]⟩, ⟨[.int32 1]⟩] (fun r => r.fields.getD 0 Literal.null)
      .int32 (by decide)
      (by
        intro r hr
        simp only [List.mem_cons, List.not_mem_nil, or_false] at hr
        rcases hr with rfl | rfl <;> exact ⟨rfl, rfl⟩)⟩

end CrackDB
